import Mathlib

/-!
# Delayed inline script loader

A shallow embedding of `src/js/_enqueues/lib/delayed-inline-script-loader.js`.

The page is a list of elements in document order; a node is named by its
position in that list (`replaceChild` puts the clone where the placeholder
stood, and nothing in the module inserts or removes a node, so positions are
stable).  The module state is the page nonce, the set `doneDependencies`, the
document, and a log of the two observable effects of `runInlineScript`: the
replacement of a placeholder by an executable clone, and the `console.error`
report of a refused one.  An element named `script` is an `HTMLScriptElement`
or a script of another namespace (`isSvgScript`), which the type selector
`script` matches as well.  The registration of the listener (lines 133-141) is
a flag beside that state: `dispatch` runs `onScriptLoad` for the `load` event
of an element while the flag is set, and the `load` event of the window
clears it.

Conventions of the embedding:
* `console.info` and `console.log` debugging output is not recorded;
* the code of an inline script, once it runs, is taken not to touch the
  elements, the registry or the listener;
* the document is an HTML document, so that an attribute selector on `type`
  compares the value of an HTML element ASCII case-insensitively;
* the selector text built at line 116 by concatenation is read by the rules
  of the CSS tokenizer for a string (`selectorId`): escapes in the handle are
  decoded, and a handle with a form feed or an unescaped `"` leaves a
  selector that `querySelector` rejects with a `SyntaxError`.  A handle that
  itself carries selector syntax behind such a `"` is read as rejected too.
-/

namespace DelayedInlineScriptLoader

/-- An element of the page, with the properties and attributes the loader reads. -/
structure Element where
  /-- `instanceof HTMLScriptElement` -/
  isScript : Bool
  /-- an element named `script` that is not an `HTMLScriptElement`, such as an SVG script: the
  type selector `script` matches it -/
  isSvgScript : Bool
  /-- the `id` attribute, the empty string when absent -/
  id : String
  /-- presence of the `src` attribute -/
  hasSrc : Bool
  /-- the `type` attribute -/
  type : String
  /-- `dataset.wpDeps`, the `data-wp-deps` attribute -/
  wpDeps : Option String
  /-- `dataset.wpDone`, the `data-wp-done` attribute -/
  wpDone : Option String
  /-- the `nonce` property, the empty string when absent -/
  nonce : String
  /-- the `async` property of a script element -/
  async : Bool
  /-- the `defer` property of a script element -/
  defer : Bool
  /-- the inline code -/
  text : String
deriving DecidableEq, Repr

/-- The two observable effects of `runInlineScript` on the node at a position. -/
inductive Effect where
  /-- `replaceChild` put an executable clone at the position (lines 46-48) -/
  | executed (pos : Nat)
  /-- `console.error` reported the failed nonce check for the node (lines 40-43) -/
  | refused (pos : Nat)
deriving DecidableEq, Repr

/-- Position of the node an effect is about. -/
def Effect.pos : Effect → Nat
  | .executed p => p
  | .refused p => p

/-- The closure state of the module (lines 8-9) together with the page and the effect log. -/
structure State where
  /-- `document.currentScript.nonce`, read once at line 8 -/
  nonce : String
  /-- the `Set` of line 9, in insertion order -/
  doneDependencies : List String
  /-- the elements of the page in document order -/
  document : List Element
  /-- effects of `runInlineScript`, oldest first -/
  trace : List Effect
deriving DecidableEq, Repr

/-- State when the module has just been evaluated on a page. -/
def init (nonce : String) (doc : List Element) : State :=
  { nonce := nonce, doneDependencies := [], document := doc, trace := [] }

/-- `Set.prototype.has` -/
def setHas (set : List String) (x : String) : Bool :=
  set.contains x

/-- `Set.prototype.add`: a member is not added again. -/
def setAdd (set : List String) (x : String) : List String :=
  if setHas set x then set else set ++ [x]

/-- `document.getElementById`: the first element in document order with that id. -/
def getElementById (doc : List Element) (id : String) : Option Element :=
  doc.find? (fun e => e.id == id)

/-- `x instanceof HTMLScriptElement` for the result of a lookup (`null` is not one). -/
def instanceofHTMLScriptElement : Option Element → Bool
  | some e => e.isScript
  | none => false

/-- Lines 17-29. -/
def isDependencyDone (s : State) (dep : String) : Bool :=
  if setHas s.doneDependencies dep then
    true
  else if !(instanceofHTMLScriptElement (getElementById s.document (dep ++ "-js"))) then
    true
  else
    false

/-- The test of line 39: `nonce && nonce !== script.nonce`. -/
def nonceCheckFails (nonce : String) (script : Element) : Bool :=
  nonce != "" && nonce != script.nonce

/-- Lines 36-49, on the node at position `p`. -/
def runInlineScript (s : State) (p : Nat) : State :=
  match s.document[p]? with
  | none => s
  | some script =>
    let script := { script with wpDone := some "1" }
    if nonceCheckFails s.nonce script then
      { s with document := s.document.set p script, trace := s.trace ++ [Effect.refused p] }
    else
      let newScript := { script with type := "text/javascript" }
      { s with document := s.document.set p newScript, trace := s.trace ++ [Effect.executed p] }

/-- `String.prototype.split(/,/)` on the characters of a string. -/
def splitComma : List Char → List (List Char)
  | [] => [[]]
  | c :: cs =>
    if c = ',' then [] :: splitComma cs
    else
      match splitComma cs with
      | [] => [[c]]
      | f :: fs => (c :: f) :: fs

/-- Lines 56-61: an absent or empty `data-wp-deps` gives no dependency. -/
def getDepsData (scriptElement : Element) : List String :=
  match scriptElement.wpDeps with
  | none => []
  | some deps => if deps = "" then [] else (splitComma deps.data).map String.mk

/-- The test of line 71 for the node at position `p`. -/
def depsDoneAt (s : State) (p : Nat) : Bool :=
  match s.document[p]? with
  | none => false
  | some script => (getDepsData script).all (isDependencyDone s)

/-- Lines 68-75, over the positions of the node list. -/
def runReadyInlineScripts (s : State) : List Nat → State
  | [] => s
  | p :: scripts =>
    runReadyInlineScripts (if depsDoneAt s p then runInlineScript s p else s) scripts

/-- Line terminators, which `.` does not match in a regular expression without the `s` flag. -/
def isLineTerminator (c : Char) : Bool :=
  c = Char.ofNat 0x0A || c = Char.ofNat 0x0D || c = Char.ofNat 0x2028 || c = Char.ofNat 0x2029

/-- Line 92, `id.match(/^(.+)-js$/)`: the capture group when the id matches. -/
def matchHandle (id : String) : Option String :=
  let cs := id.data
  let handle := cs.take (cs.length - 3)
  if cs.drop (cs.length - 3) = ['-', 'j', 's'] ∧ handle ≠ [] ∧
      handle.all (fun c => !isLineTerminator c) = true then
    some (String.mk handle)
  else
    none

/-- `document.querySelectorAll`: positions of the matching elements, in document order. -/
def querySelectorAll (doc : List Element) (sel : Element → Bool) : List Nat :=
  (List.range doc.length).filter (fun p => match doc[p]? with
    | some e => sel e
    | none => false)

/-- `document.querySelector`: position of the first matching element. -/
def querySelector (doc : List Element) (sel : Element → Bool) : Option Nat :=
  (querySelectorAll doc sel).head?

/-- The type selector `script`: an HTML script element or a script element of another
namespace. -/
def matchesScript (e : Element) : Bool :=
  e.isScript || e.isSvgScript

/-- The attribute selector `[type="text/plain"]`: the value of `type` is compared ASCII
case-insensitively on an HTML element and exactly on any other element. -/
def typeIsPlain (e : Element) : Bool :=
  if e.isScript then e.type.data.map Char.toLower == "text/plain".data
  else e.type == "text/plain"

/-- Newlines of the CSS tokenizer, whose preprocessing turns a form feed and a carriage return
into a line feed. -/
def cssNewline (c : Char) : Bool :=
  c = Char.ofNat 0x0A || c = Char.ofNat 0x0D || c = Char.ofNat 0x0C

/-- Whitespace of the CSS tokenizer. -/
def cssWhitespace (c : Char) : Bool :=
  cssNewline c || c = Char.ofNat 0x20 || c = Char.ofNat 0x09

/-- Value of a hexadecimal digit. -/
def hexValue (c : Char) : Option Nat :=
  if 48 ≤ c.toNat ∧ c.toNat ≤ 57 then some (c.toNat - 48)
  else if 65 ≤ c.toNat ∧ c.toNat ≤ 70 then some (c.toNat - 55)
  else if 97 ≤ c.toNat ∧ c.toNat ≤ 102 then some (c.toNat - 87)
  else none

/-- The code point a hexadecimal escape stands for: U+FFFD for zero, a surrogate or a number
beyond the last code point. -/
def cssCodePoint (v : Nat) : Char :=
  if v = 0 ∨ (0xD800 ≤ v ∧ v ≤ 0xDFFF) ∨ 0x10FFFF < v then Char.ofNat 0xFFFD else Char.ofNat v

/-- Preprocessing of the input of the CSS tokenizer: U+0000 becomes U+FFFD. -/
def cssFilter (c : Char) : Char :=
  if c = Char.ofNat 0 then Char.ofNat 0xFFFD else c

/-- Where the CSS tokenizer stands inside a string: between code points, behind a backslash,
or inside a hexadecimal escape of which `digits` digits of value `value` are read. -/
inductive CssMode where
  | normal
  | escape
  | hex (digits : Nat) (value : Nat)
deriving DecidableEq, Repr

/-- One code point of a double-quoted CSS string outside an escape: the characters appended to
the value and the next mode; `none` when the string ends there, at an unescaped `"` or at a
newline. -/
def cssNormal (c : Char) : Option (List Char × CssMode) :=
  if c = Char.ofNat 0x22 then none
  else if cssNewline c then none
  else if c = Char.ofNat 0x5C then some ([], CssMode.escape)
  else some ([cssFilter c], CssMode.normal)

/-- One code point of a double-quoted CSS string in any mode. A backslash followed by a
newline is dropped; a hexadecimal escape takes at most six digits and one whitespace. -/
def cssStep : CssMode → Char → Option (List Char × CssMode)
  | CssMode.normal, c => cssNormal c
  | CssMode.escape, c =>
    if cssNewline c then some ([], CssMode.normal)
    else
      match hexValue c with
      | some d => some ([], CssMode.hex 1 d)
      | none => some ([cssFilter c], CssMode.normal)
  | CssMode.hex n v, c =>
    match hexValue c with
    | some d =>
      if n < 6 then some ([], CssMode.hex (n + 1) (16 * v + d))
      else (cssNormal c).map (fun r => (cssCodePoint v :: r.1, r.2))
    | none =>
      if cssWhitespace c then some ([cssCodePoint v], CssMode.normal)
      else (cssNormal c).map (fun r => (cssCodePoint v :: r.1, r.2))

/-- The value of a double-quoted CSS string whose content, up to the closing `"` written at
line 116, is the given text; `none` when the string ends before that `"`. At the end of the
text a pending hexadecimal escape gives its code point; a pending backslash would escape the
closing `"` and take the `]` behind it into the value, which the text of line 116, ending in
`-js-after`, never does. -/
def cssString : CssMode → List Char → Option (List Char)
  | CssMode.normal, [] => some []
  | CssMode.escape, [] => some [Char.ofNat 0x22, Char.ofNat 0x5D]
  | CssMode.hex _ v, [] => some [cssCodePoint v]
  | m, c :: cs =>
    match cssStep m c with
    | none => none
    | some (out, m1) => (cssString m1 cs).map (fun v => out ++ v)

/-- The id the selector text of line 116 asks for: the value of the CSS string whose content
is the handle followed by `-js-after`. `none` when that text is not a valid selector, so that
`querySelector` throws a `SyntaxError`. -/
def selectorId (handle : String) : Option String :=
  (cssString CssMode.normal (handle ++ "-js-after").data).map String.mk

/-- Selector of line 116, `script:not([src])[type="text/plain"][id="<id>"]`, for the id that
the selector text asks for. -/
def afterSelector (id : String) (e : Element) : Bool :=
  matchesScript e && !e.hasSrc && typeIsPlain e && e.id == id

/-- Selector of line 125:
`script:not([src])[type="text/plain"][data-wp-deps][id$="-js-before"]:not([data-wp-done])`. -/
def beforeSelector (e : Element) : Bool :=
  matchesScript e && !e.hasSrc && typeIsPlain e && e.wpDeps.isSome &&
    "-js-before".data.isSuffixOf e.id.data && e.wpDone.isNone

/-- Lines 97-106: the handle, then each declared dependency of the target, is added. -/
def addDone (set : List String) (handle : String) (target : Element) : List String :=
  (getDepsData target).foldl setAdd (setAdd set handle)

/-- Lines 113-121: the after script of the handle, when the target is async or deferred.
The `async` and `defer` properties exist on script elements only. `none` when
`querySelector` throws at line 115. -/
def runAfterScript (s : State) (target : Element) (handle : String) : Option State :=
  if target.isScript && (target.async || target.defer) then
    match selectorId handle with
    | none => none
    | some id =>
      match querySelector s.document (afterSelector id) with
      | none => some s
      | some p =>
        if instanceofHTMLScriptElement s.document[p]? then some (runInlineScript s p)
        else some s
  else
    some s

/-- Lines 86-131, for a load event whose target is `target`. When line 115 throws, the handler
ends there: the registry is updated and nothing is released. -/
def onScriptLoad (s : State) (target : Element) : State :=
  if !(target.isScript || target.id != "") then
    s
  else
    match matchHandle target.id with
    | none => s
    | some handle =>
      let s1 := { s with doneDependencies := addDone s.doneDependencies handle target }
      match runAfterScript s1 target handle with
      | none => s1
      | some s2 => runReadyInlineScripts s2 (querySelectorAll s2.document beforeSelector)

/-- The listener of line 133 handling a sequence of load events in delivery order. -/
def handleEvents (s : State) (events : List Element) : State :=
  events.foldl onScriptLoad s

/-- Line 115 throws for this target and handle: the target is an async or deferred script and
the selector text is not a valid selector. -/
def selectorThrows (target : Element) (handle : String) : Bool :=
  target.isScript && (target.async || target.defer) && (selectorId handle).isNone

/-- Lines 97-121 of `onScriptLoad` for a matched handle: the registry update followed by the
release of the after script, or by the exception of line 115. The pool scan of lines 124-130,
when the handler reaches it, starts from this state. -/
def afterPhase (s : State) (target : Element) (handle : String) : State :=
  match runAfterScript { s with doneDependencies := addDone s.doneDependencies handle target }
    target handle with
  | none => { s with doneDependencies := addDone s.doneDependencies handle target }
  | some s2 => s2

/-- The module on its page: the closure state, and whether `onScriptLoad` is still registered
as the capturing `load` listener of the document (lines 133 and 138). -/
structure Page where
  /-- the closure state and the document -/
  state : State
  /-- `onScriptLoad` is registered on the document -/
  listening : Bool
deriving DecidableEq, Repr

/-- The page once the module body has run: line 133 has registered the listener. -/
def evaluateModule (nonce : String) (doc : List Element) : Page :=
  { state := init nonce doc, listening := true }

/-- The `load` events the two listeners of lines 133-141 can receive. -/
inductive PageEvent where
  /-- the `load` event of an element, captured on the document -/
  | elementLoad (target : Element)
  /-- the `load` event of the window -/
  | windowLoad
deriving DecidableEq, Repr

/-- Delivery of one event: `onScriptLoad` runs while it is registered (line 133); the window
`load` listener removes it (lines 135-141). -/
def dispatch (pg : Page) : PageEvent → Page
  | PageEvent.elementLoad target =>
    if pg.listening then { pg with state := onScriptLoad pg.state target } else pg
  | PageEvent.windowLoad => { pg with listening := false }

/-- Delivery of a sequence of events, in order. -/
def dispatchAll (pg : Page) (events : List PageEvent) : Page :=
  events.foldl dispatch pg

/-- Number of times `replaceChild` put an executable clone at position `p`: the number of times
the withheld script at `p` was materialized as an executable script. -/
def execCount (s : State) (p : Nat) : Nat :=
  s.trace.count (Effect.executed p)

/-- Number of `console.error` reports about the node at position `p`. -/
def reportCount (s : State) (p : Nat) : Nat :=
  s.trace.count (Effect.refused p)

/-- Whether the node at position `p` carries the done marker `data-wp-done`. -/
def releasedAt (s : State) (p : Nat) : Bool :=
  match s.document[p]? with
  | some e => e.wpDone.isSome
  | none => false

/-- The part of an element `runInlineScript` never writes: the element with its `type`
and its done marker blanked. -/
def Element.fixedPart (e : Element) : Element :=
  { e with type := "", wpDone := none }

/-- The effect `runInlineScript` logs for the node at position `p`: a report when the nonce
check of line 39 fails, the replacement by an executable clone otherwise. -/
def releaseEffect (s : State) (p : Nat) : Effect :=
  match s.document[p]? with
  | some e => if nonceCheckFails s.nonce e then Effect.refused p else Effect.executed p
  | none => Effect.executed p

/-- An element one of the two selectors of `onScriptLoad` can pick. -/
def Selectable (e : Element) : Prop :=
  (∃ handle id, selectorId handle = some id ∧ afterSelector id e = true) ∨
    beforeSelector e = true

/-- Two states with the same page nonce and registry whose documents differ at most in the
`type` and done marker of their elements. -/
def SameFrame (s t : State) : Prop :=
  t.nonce = s.nonce ∧ t.doneDependencies = s.doneDependencies ∧
    t.document.map Element.fixedPart = s.document.map Element.fixedPart

/-- Invariant behind at-most-once execution: no position was materialized twice, and a
materialized position no longer holds a `text/plain` placeholder. -/
def ExecOnce (t : State) : Prop :=
  ∀ q, execCount t q ≤ 1 ∧
    (Effect.executed q ∈ t.trace → ∀ e, t.document[q]? = some e → typeIsPlain e = false)

/-- The first element in document order whose id is `id` is a script element. -/
def FirstIsScript (doc : List Element) (id : String) : Prop :=
  ∃ (p : Nat) (e : Element), doc[p]? = some e ∧ e.id = id ∧ e.isScript = true ∧
    ∀ q, q < p → ∀ e1 : Element, doc[q]? = some e1 → e1.id ≠ id

/-- The position the after-script step of lines 113-121 releases, if it releases one: the
first match of the selector of line 116, when the target is async or deferred and that match
passes the test of line 118. -/
def afterTarget (s : State) (target : Element) (handle : String) : Option Nat :=
  if target.isScript && (target.async || target.defer) then
    match selectorId handle with
    | none => none
    | some id =>
      match querySelector s.document (afterSelector id) with
      | none => none
      | some p => if instanceofHTMLScriptElement s.document[p]? then some p else none
  else
    none

/-- The node list of line 124, taken once the after-script step is over; no node when line
115 has thrown and the handler never reaches line 124. -/
def beforePool (s : State) (target : Element) (handle : String) : List Nat :=
  if selectorThrows target handle then []
  else querySelectorAll (afterPhase s target handle).document beforeSelector

/-- A character that stands for itself in a double-quoted CSS string: no `"`, no backslash,
no newline, no U+0000. -/
def cssPlain (c : Char) : Bool :=
  !(c = Char.ofNat 0x22 || cssNewline c || c = Char.ofNat 0x5C || c = Char.ofNat 0)

/-- A script element with the given id and no other attribute. -/
def scriptEl (id : String) : Element :=
  { isScript := true, isSvgScript := false, id := id, hasSrc := false, type := "",
    wpDeps := none, wpDone := none, nonce := "", async := false, defer := false, text := "" }

/-- An element that is not a script, such as an image or an iframe, with the given id. -/
def nonScriptEl (id : String) : Element :=
  { scriptEl id with isScript := false }

/-- A withheld inline script: `type="text/plain"`, no `src`. -/
def fragment (id : String) (deps : Option String) (nonce : String) : Element :=
  { scriptEl id with type := "text/plain", wpDeps := deps, nonce := nonce, text := "f()" }

/-- A withheld inline script that is an SVG script element, not an `HTMLScriptElement`. -/
def svgFragment (id : String) (deps : Option String) (nonce : String) : Element :=
  { fragment id deps nonce with isScript := false, isSvgScript := true }

/-- An external script with a `src`, loaded with `defer`. -/
def deferredUnit (id : String) (deps : Option String) : Element :=
  { scriptEl id with hasSrc := true, wpDeps := deps, defer := true }

/-! ## Frame of `runInlineScript` -/

theorem nonceCheckFails_marked (n : String) (e : Element) (d : Option String) :
    nonceCheckFails n { e with wpDone := d } = nonceCheckFails n e := rfl

theorem runInlineScript_of_none {s : State} {p : Nat} (h : s.document[p]? = none) :
    runInlineScript s p = s := by
  simp [runInlineScript, h]

theorem runInlineScript_of_fails {s : State} {p : Nat} {e : Element}
    (h : s.document[p]? = some e) (hn : nonceCheckFails s.nonce e = true) :
    runInlineScript s p =
      { s with document := s.document.set p { e with wpDone := some "1" },
               trace := s.trace ++ [Effect.refused p] } := by
  simp [runInlineScript, h, nonceCheckFails_marked, hn]

theorem runInlineScript_of_passes {s : State} {p : Nat} {e : Element}
    (h : s.document[p]? = some e) (hn : nonceCheckFails s.nonce e = false) :
    runInlineScript s p =
      { s with document := s.document.set p
                 { e with wpDone := some "1", type := "text/javascript" },
               trace := s.trace ++ [Effect.executed p] } := by
  simp [runInlineScript, h, nonceCheckFails_marked, hn]

theorem runInlineScript_cases (s : State) (p : Nat) :
    (s.document[p]? = none ∧ runInlineScript s p = s) ∨
    (∃ e, s.document[p]? = some e ∧ nonceCheckFails s.nonce e = true ∧
      runInlineScript s p =
        { s with document := s.document.set p { e with wpDone := some "1" },
                 trace := s.trace ++ [Effect.refused p] }) ∨
    (∃ e, s.document[p]? = some e ∧ nonceCheckFails s.nonce e = false ∧
      runInlineScript s p =
        { s with document := s.document.set p
                   { e with wpDone := some "1", type := "text/javascript" },
                 trace := s.trace ++ [Effect.executed p] }) := by
  cases h : s.document[p]? with
  | none => exact Or.inl ⟨rfl, runInlineScript_of_none h⟩
  | some e =>
    cases hn : nonceCheckFails s.nonce e
    · exact Or.inr (Or.inr ⟨e, rfl, hn, runInlineScript_of_passes h hn⟩)
    · exact Or.inr (Or.inl ⟨e, rfl, hn, runInlineScript_of_fails h hn⟩)

theorem runInlineScript_nonce (s : State) (p : Nat) : (runInlineScript s p).nonce = s.nonce := by
  rcases runInlineScript_cases s p with ⟨_, h⟩ | ⟨e, _, _, h⟩ | ⟨e, _, _, h⟩ <;> rw [h]

theorem runInlineScript_doneDependencies (s : State) (p : Nat) :
    (runInlineScript s p).doneDependencies = s.doneDependencies := by
  rcases runInlineScript_cases s p with ⟨_, h⟩ | ⟨e, _, _, h⟩ | ⟨e, _, _, h⟩ <;> rw [h]

theorem runInlineScript_document_ne (s : State) {p q : Nat} (h : q ≠ p) :
    (runInlineScript s p).document[q]? = s.document[q]? := by
  rcases runInlineScript_cases s p with ⟨_, h1⟩ | ⟨e, _, _, h1⟩ | ⟨e, _, _, h1⟩ <;> rw [h1] <;>
    simp [List.getElem?_set, Ne.symm h]

theorem runInlineScript_trace {s : State} {p : Nat} {e : Element}
    (h : s.document[p]? = some e) :
    (runInlineScript s p).trace = s.trace ++ [releaseEffect s p] := by
  cases hn : nonceCheckFails s.nonce e
  · rw [runInlineScript_of_passes h hn]; simp [releaseEffect, h, hn]
  · rw [runInlineScript_of_fails h hn]; simp [releaseEffect, h, hn]

theorem set_fixedPart {doc : List Element} {p : Nat} {e e1 : Element}
    (h : doc[p]? = some e) (he : e1.fixedPart = e.fixedPart) :
    (doc.set p e1).map Element.fixedPart = doc.map Element.fixedPart := by
  apply List.ext_getElem?
  intro q
  by_cases hq : q = p
  · subst hq
    rcases List.getElem?_eq_some.1 h with ⟨hlt, hq⟩
    simp [List.getElem?_set, hlt, hq, he]
  · simp [List.getElem?_set, Ne.symm hq]

theorem runInlineScript_fixedPart (s : State) (p : Nat) :
    (runInlineScript s p).document.map Element.fixedPart = s.document.map Element.fixedPart := by
  cases h : s.document[p]? with
  | none => rw [runInlineScript_of_none h]
  | some e =>
    cases hn : nonceCheckFails s.nonce e
    · rw [runInlineScript_of_passes h hn]; exact set_fixedPart h rfl
    · rw [runInlineScript_of_fails h hn]; exact set_fixedPart h rfl

/-! ## What the readiness test reads -/

theorem sameFrame_refl (s : State) : SameFrame s s := ⟨rfl, rfl, rfl⟩

theorem sameFrame_runInlineScript {s t : State} (h : SameFrame s t) (p : Nat) :
    SameFrame s (runInlineScript t p) :=
  ⟨(runInlineScript_nonce t p).trans h.1, (runInlineScript_doneDependencies t p).trans h.2.1,
    (runInlineScript_fixedPart t p).trans h.2.2⟩

theorem getElem?_fixedPart {d d1 : List Element}
    (h : d1.map Element.fixedPart = d.map Element.fixedPart) (q : Nat) :
    (d1[q]?).map Element.fixedPart = (d[q]?).map Element.fixedPart := by
  rw [← List.getElem?_map, ← List.getElem?_map, h]

theorem instanceof_getElementById_map (doc : List Element) (i : String) :
    instanceofHTMLScriptElement (getElementById (doc.map Element.fixedPart) i) =
      instanceofHTMLScriptElement (getElementById doc i) := by
  induction doc with
  | nil => rfl
  | cons e rest ih =>
    unfold getElementById at ih ⊢
    by_cases he : e.id = i
    · simp [List.find?_cons, Element.fixedPart, he, instanceofHTMLScriptElement]
    · simpa [List.find?_cons, Element.fixedPart, he] using ih

theorem isDependencyDone_congr {s t : State} (h : SameFrame s t) (dep : String) :
    isDependencyDone t dep = isDependencyDone s dep := by
  unfold isDependencyDone
  rw [h.2.1, ← instanceof_getElementById_map t.document, h.2.2,
    instanceof_getElementById_map s.document]

theorem depsDoneAt_congr {s t : State} (h : SameFrame s t) (p : Nat) :
    depsDoneAt t p = depsDoneAt s p := by
  have hq := getElem?_fixedPart h.2.2 p
  have hfun : isDependencyDone t = isDependencyDone s := funext (isDependencyDone_congr h)
  unfold depsDoneAt
  cases ht : t.document[p]? with
  | none =>
    cases hs : s.document[p]? with
    | none => rfl
    | some e => rw [ht, hs] at hq; simp at hq
  | some e1 =>
    cases hs : s.document[p]? with
    | none => rw [ht, hs] at hq; simp at hq
    | some e =>
      rw [ht, hs] at hq
      have hd : e1.wpDeps = e.wpDeps := by
        have := congrArg Element.wpDeps (Option.some.inj hq)
        simpa [Element.fixedPart] using this
      simp [getDepsData, hd, hfun]

theorem releaseEffect_congr {s t : State} (h : SameFrame s t) (p : Nat) :
    releaseEffect t p = releaseEffect s p := by
  have hq := getElem?_fixedPart h.2.2 p
  unfold releaseEffect
  cases ht : t.document[p]? with
  | none =>
    cases hs : s.document[p]? with
    | none => rfl
    | some e => rw [ht, hs] at hq; simp at hq
  | some e1 =>
    cases hs : s.document[p]? with
    | none => rw [ht, hs] at hq; simp at hq
    | some e =>
      rw [ht, hs] at hq
      have hd : e1.nonce = e.nonce := by
        have := congrArg Element.nonce (Option.some.inj hq)
        simpa [Element.fixedPart] using this
      simp [nonceCheckFails, hd, h.1]

theorem depsDoneAt_inRange {s : State} {p : Nat} (h : depsDoneAt s p = true) :
    ∃ e, s.document[p]? = some e := by
  unfold depsDoneAt at h
  cases hs : s.document[p]? with
  | none => rw [hs] at h; simp at h
  | some e => exact ⟨e, rfl⟩

theorem runReadyInlineScripts_trace (s : State) (pool : List Nat) :
    ∀ t, SameFrame s t →
      (runReadyInlineScripts t pool).trace =
        t.trace ++ (pool.filter (depsDoneAt s)).map (releaseEffect s) := by
  induction pool with
  | nil => intro t _; simp [runReadyInlineScripts]
  | cons p rest ih =>
    intro t ht
    unfold runReadyInlineScripts
    rw [depsDoneAt_congr ht p]
    cases hp : depsDoneAt s p
    · simpa [List.filter_cons, hp] using ih t ht
    · obtain ⟨e, he⟩ := depsDoneAt_inRange ((depsDoneAt_congr ht p).trans hp)
      rw [if_pos rfl, ih _ (sameFrame_runInlineScript ht p), runInlineScript_trace he,
        releaseEffect_congr ht p]
      simp [List.filter_cons, hp]

theorem runReadyInlineScripts_sameFrame (s : State) (pool : List Nat) :
    ∀ t, SameFrame s t → SameFrame s (runReadyInlineScripts t pool) := by
  induction pool with
  | nil => intro t ht; exact ht
  | cons p rest ih =>
    intro t ht
    unfold runReadyInlineScripts
    split
    · exact ih _ (sameFrame_runInlineScript ht p)
    · exact ih _ ht

theorem nonceCheckFails_eq_false_iff (n : String) (e : Element) :
    nonceCheckFails n e = false ↔ (n = "" ∨ n = e.nonce) := by
  unfold nonceCheckFails
  by_cases h1 : n = "" <;> by_cases h2 : n = e.nonce <;> simp [h1, h2]

theorem nonceCheckFails_eq_true_iff (n : String) (e : Element) :
    nonceCheckFails n e = true ↔ ¬ (n = "" ∨ n = e.nonce) := by
  rw [← nonceCheckFails_eq_false_iff]
  cases nonceCheckFails n e <;> simp

theorem getElem?_set_same {doc : List Element} {p : Nat} {e : Element} (e1 : Element)
    (h : doc[p]? = some e) : (doc.set p e1)[p]? = some e1 := by
  rcases List.getElem?_eq_some.1 h with ⟨hlt, _⟩
  simp [List.getElem?_set, hlt]

theorem pos_releaseEffect (s : State) (p : Nat) : (releaseEffect s p).pos = p := by
  unfold releaseEffect
  split
  · split <;> rfl
  · rfl

theorem runInlineScript_releasedAt {s : State} {p : Nat} {e : Element}
    (h : s.document[p]? = some e) : releasedAt (runInlineScript s p) p = true := by
  cases hn : nonceCheckFails s.nonce e
  · rw [runInlineScript_of_passes h hn]
    simp [releasedAt, getElem?_set_same _ h]
  · rw [runInlineScript_of_fails h hn]
    simp [releasedAt, getElem?_set_same _ h]

/-! ## The selectors and an induction principle for the handler -/

theorem mem_querySelectorAll {doc : List Element} {sel : Element → Bool} {p : Nat} :
    p ∈ querySelectorAll doc sel ↔ ∃ e, doc[p]? = some e ∧ sel e = true := by
  unfold querySelectorAll
  rw [List.mem_filter]
  constructor
  · rintro ⟨_, h⟩
    cases hd : doc[p]? with
    | none => rw [hd] at h; simp at h
    | some e => rw [hd] at h; exact ⟨e, rfl, h⟩
  · rintro ⟨e, he, hs⟩
    rcases List.getElem?_eq_some.1 he with ⟨hlt, _⟩
    refine ⟨List.mem_range.2 hlt, ?_⟩
    rw [he]; exact hs

theorem nodup_querySelectorAll (doc : List Element) (sel : Element → Bool) :
    (querySelectorAll doc sel).Nodup :=
  (List.nodup_range doc.length).filter _

theorem querySelector_some {doc : List Element} {sel : Element → Bool} {p : Nat}
    (h : querySelector doc sel = some p) : ∃ e, doc[p]? = some e ∧ sel e = true :=
  mem_querySelectorAll.1 (List.mem_of_mem_head? h)

theorem runReadyInlineScripts_induction (I : State → Prop)
    (hrun : ∀ t p e, I t → t.document[p]? = some e → beforeSelector e = true →
      I (runInlineScript t p)) :
    ∀ (pool : List Nat) (t : State), pool.Nodup →
      (∀ q ∈ pool, ∃ e, t.document[q]? = some e ∧ beforeSelector e = true) →
      I t → I (runReadyInlineScripts t pool) := by
  intro pool
  induction pool with
  | nil => intro t _ _ ht; exact ht
  | cons p rest ih =>
    intro t hnd hsel ht
    rw [List.nodup_cons] at hnd
    unfold runReadyInlineScripts
    split
    · obtain ⟨e, he, hb⟩ := hsel p (List.mem_cons_self p rest)
      apply ih _ hnd.2
      · intro q hq
        have hne : q ≠ p := fun h => hnd.1 (h ▸ hq)
        rw [runInlineScript_document_ne t hne]
        exact hsel q (List.mem_cons_of_mem p hq)
      · exact hrun t p e ht he hb
    · exact ih _ hnd.2 (fun q hq => hsel q (List.mem_cons_of_mem p hq)) ht

theorem runAfterScript_induction (I : State → Prop)
    (hrun : ∀ t p e, I t → t.document[p]? = some e → Selectable e → I (runInlineScript t p))
    (t : State) (target : Element) (handle : String) (ht : I t) :
    ∀ t2, runAfterScript t target handle = some t2 → I t2 := by
  intro t2 h2
  unfold runAfterScript at h2
  split at h2
  · cases hid : selectorId handle with
    | none => rw [hid] at h2; cases h2
    | some id =>
      rw [hid] at h2
      simp only [] at h2
      cases hq : querySelector t.document (afterSelector id) with
      | none =>
        rw [hq] at h2
        cases h2
        exact ht
      | some p =>
        obtain ⟨e, he, hs⟩ := querySelector_some hq
        rw [hq] at h2
        simp only [] at h2
        split at h2
        · cases h2
          exact hrun t p e ht he (Or.inl ⟨handle, id, hid, hs⟩)
        · cases h2
          exact ht
  · cases h2
    exact ht

theorem onScriptLoad_induction (I : State → Prop)
    (hreg : ∀ t done, I t → I { t with doneDependencies := done })
    (hrun : ∀ t p e, I t → t.document[p]? = some e → Selectable e → I (runInlineScript t p))
    (t : State) (target : Element) (ht : I t) : I (onScriptLoad t target) := by
  unfold onScriptLoad
  split
  · exact ht
  · split
    · exact ht
    · rename_i handle _
      simp only []
      split
      · exact hreg t _ ht
      · rename_i s2 h2
        apply runReadyInlineScripts_induction I
          (fun u p e hu he hb => hrun u p e hu he (Or.inr hb)) _ _
          (nodup_querySelectorAll _ _)
        · intro q hq
          exact mem_querySelectorAll.1 hq
        · exact runAfterScript_induction I hrun _ target handle (hreg t _ ht) s2 h2

theorem handleEvents_induction (I : State → Prop)
    (hreg : ∀ t done, I t → I { t with doneDependencies := done })
    (hrun : ∀ t p e, I t → t.document[p]? = some e → Selectable e → I (runInlineScript t p)) :
    ∀ (events : List Element) (t : State), I t → I (handleEvents t events) := by
  intro events
  induction events with
  | nil => intro t ht; exact ht
  | cons ev rest ih =>
    intro t ht
    exact ih _ (onScriptLoad_induction I hreg hrun t ev ht)

theorem selectable_type_plain {e : Element} (h : Selectable e) : typeIsPlain e = true := by
  rcases h with ⟨handle, id, _, h⟩ | h
  · simp only [afterSelector, Bool.and_eq_true] at h; exact h.1.2
  · simp only [beforeSelector, Bool.and_eq_true] at h; exact h.1.1.1.2

theorem typeIsPlain_javascript (e : Element) :
    typeIsPlain { e with type := "text/javascript" } = false := by
  unfold typeIsPlain
  split <;> rfl

/-! ## At most one execution -/

theorem execOnce_init (nonce : String) (doc : List Element) : ExecOnce (init nonce doc) := by
  intro q
  simp [execCount, DelayedInlineScriptLoader.init]

theorem execOnce_registry {t : State} (h : ExecOnce t) (done : List String) :
    ExecOnce { t with doneDependencies := done } := h

theorem execOnce_runInlineScript {t : State} (h : ExecOnce t) {p : Nat} {e : Element}
    (he : t.document[p]? = some e) (hs : Selectable e) : ExecOnce (runInlineScript t p) := by
  have hplain := selectable_type_plain hs
  have hnot : Effect.executed p ∉ t.trace := fun hm => by
    have := (h p).2 hm e he
    rw [hplain] at this
    cases this
  intro q
  cases hn : nonceCheckFails t.nonce e
  · rw [runInlineScript_of_passes he hn]
    by_cases hq : q = p
    · subst hq
      refine ⟨?_, ?_⟩
      · simp [execCount, List.count_append, List.count_eq_zero.2 hnot]
      · intro _ e1 he1
        rw [getElem?_set_same _ he] at he1
        cases he1
        exact typeIsPlain_javascript _
    · refine ⟨?_, ?_⟩
      · have := (h q).1
        simpa [execCount, List.count_append, List.count_singleton, Ne.symm hq] using this
      · intro hm e1 he1
        have hm1 : Effect.executed q ∈ t.trace := by simpa [hq] using hm
        have he2 : t.document[q]? = some e1 := by
          simpa [List.getElem?_set, Ne.symm hq] using he1
        exact (h q).2 hm1 e1 he2
  · rw [runInlineScript_of_fails he hn]
    refine ⟨?_, ?_⟩
    · have := (h q).1
      simpa [execCount, List.count_append, List.count_singleton] using this
    · intro hm e1 he1
      have hm1 : Effect.executed q ∈ t.trace := by simpa using hm
      by_cases hq : q = p
      · subst hq; exact absurd hm1 hnot
      · have he2 : t.document[q]? = some e1 := by
          simpa [List.getElem?_set, Ne.symm hq] using he1
        exact (h q).2 hm1 e1 he2

theorem execOnce_handleEvents {t : State} (h : ExecOnce t) (events : List Element) :
    ExecOnce (handleEvents t events) :=
  handleEvents_induction ExecOnce (fun _ done hu => execOnce_registry hu done)
    (fun _ _ _ hu he hs => execOnce_runInlineScript hu he hs) events t h

/-! ## The selector text of line 116 -/

theorem cssString_cons (m : CssMode) (c : Char) (cs : List Char) :
    cssString m (c :: cs) =
      match cssStep m c with
      | none => none
      | some (out, m1) => (cssString m1 cs).map (fun v => out ++ v) := by
  cases m <;> rfl

theorem cssString_after (m : CssMode) :
    ∃ pre, cssString m "-js-after".data = some (pre ++ "-js-after".data) := by
  cases m with
  | normal => exact ⟨[], rfl⟩
  | escape => exact ⟨[], rfl⟩
  | hex n v => exact ⟨[cssCodePoint v], rfl⟩

theorem cssString_suffix (t : List Char) :
    ∀ (m : CssMode) (v : List Char), cssString m (t ++ "-js-after".data) = some v →
      ∃ pre, v = pre ++ "-js-after".data := by
  induction t with
  | nil =>
    intro m v h
    obtain ⟨pre, hpre⟩ := cssString_after m
    rw [List.nil_append, hpre] at h
    exact ⟨pre, (Option.some.inj h).symm⟩
  | cons c t ih =>
    intro m v h
    rw [List.cons_append, cssString_cons] at h
    cases hstep : cssStep m c with
    | none => rw [hstep] at h; cases h
    | some r =>
      obtain ⟨out, m1⟩ := r
      rw [hstep] at h
      simp only [] at h
      cases hrest : cssString m1 (t ++ "-js-after".data) with
      | none => rw [hrest] at h; cases h
      | some v1 =>
        rw [hrest] at h
        obtain ⟨pre, hpre⟩ := ih m1 v1 hrest
        refine ⟨out ++ pre, ?_⟩
        have := Option.some.inj h
        rw [← this, hpre, List.append_assoc]

theorem selectorId_suffix {handle id : String} (h : selectorId handle = some id) :
    ∃ pre : String, id = pre ++ "-js-after" := by
  unfold selectorId at h
  rw [String.data_append] at h
  cases hv : cssString CssMode.normal (handle.data ++ "-js-after".data) with
  | none => rw [hv] at h; cases h
  | some v =>
    rw [hv] at h
    obtain ⟨pre, hpre⟩ := cssString_suffix handle.data CssMode.normal v hv
    refine ⟨String.mk pre, ?_⟩
    have := Option.some.inj h
    rw [← this, hpre]
    rfl

theorem cssNormal_plain {c : Char} (h : cssPlain c = true) :
    cssNormal c = some ([c], CssMode.normal) := by
  unfold cssPlain at h
  simp only [Bool.not_eq_true', Bool.or_eq_false_iff, decide_eq_false_iff_not] at h
  obtain ⟨⟨⟨h1, h2⟩, h3⟩, h4⟩ := h
  simp [cssNormal, cssFilter, h1, h2, h3, h4]

theorem cssString_plain (t : List Char) (h : ∀ c ∈ t, cssPlain c = true) :
    cssString CssMode.normal t = some t := by
  induction t with
  | nil => rfl
  | cons c t ih =>
    rw [cssString_cons]
    have hc : cssStep CssMode.normal c = some ([c], CssMode.normal) :=
      cssNormal_plain (h c (List.mem_cons_self c t))
    rw [hc]
    simp only []
    rw [ih (fun d hd => h d (List.mem_cons_of_mem c hd))]
    rfl

theorem selectorId_plain {handle : String} (h : ∀ c ∈ handle.data, cssPlain c = true) :
    selectorId handle = some (handle ++ "-js-after") := by
  unfold selectorId
  rw [cssString_plain]
  · rfl
  · intro c hc
    rw [String.data_append, List.mem_append] at hc
    rcases hc with hc | hc
    · exact h c hc
    · revert c
      decide

theorem afterSelector_id {id : String} {e : Element} (h : afterSelector id e = true) :
    e.id = id := by
  simp only [afterSelector, Bool.and_eq_true, beq_iff_eq] at h
  exact h.2

/-! ## Counting the effects at one position -/

theorem runInlineScript_map_nonce (t : State) (q p : Nat) :
    ((runInlineScript t q).document[p]?).map Element.nonce =
      (t.document[p]?).map Element.nonce := by
  have h := congrArg (Option.map Element.nonce)
    (getElem?_fixedPart (runInlineScript_fixedPart t q) p)
  simpa [Option.map_map, Function.comp_def, Element.fixedPart] using h

theorem runInlineScript_map_id (t : State) (q p : Nat) :
    ((runInlineScript t q).document[p]?).map Element.id = (t.document[p]?).map Element.id := by
  have h := congrArg (Option.map Element.id)
    (getElem?_fixedPart (runInlineScript_fixedPart t q) p)
  simpa [Option.map_map, Function.comp_def, Element.fixedPart] using h

theorem execCount_runInlineScript_ne (t : State) {q p : Nat} (h : q ≠ p) :
    execCount (runInlineScript t q) p = execCount t p := by
  rcases runInlineScript_cases t q with ⟨_, h1⟩ | ⟨e, _, _, h1⟩ | ⟨e, _, _, h1⟩ <;> rw [h1] <;>
    simp [execCount, List.count_append, List.count_singleton, h]

theorem reportCount_runInlineScript_ne (t : State) {q p : Nat} (h : q ≠ p) :
    reportCount (runInlineScript t q) p = reportCount t p := by
  rcases runInlineScript_cases t q with ⟨_, h1⟩ | ⟨e, _, _, h1⟩ | ⟨e, _, _, h1⟩ <;> rw [h1] <;>
    simp [reportCount, List.count_append, List.count_singleton, h]

theorem releasedAt_runInlineScript_ne (t : State) {q p : Nat} (h : q ≠ p) :
    releasedAt (runInlineScript t q) p = releasedAt t p := by
  unfold releasedAt
  rw [runInlineScript_document_ne t (Ne.symm h)]

theorem execCount_runInlineScript_fails {t : State} {p : Nat} {e : Element}
    (he : t.document[p]? = some e) (hn : nonceCheckFails t.nonce e = true) :
    execCount (runInlineScript t p) p = execCount t p := by
  rw [runInlineScript_of_fails he hn]
  simp [execCount, List.count_append, List.count_singleton]

theorem reportCount_runInlineScript_le (t : State) (p : Nat) :
    reportCount (runInlineScript t p) p ≤ reportCount t p + 1 := by
  rcases runInlineScript_cases t p with ⟨_, h1⟩ | ⟨e, _, _, h1⟩ | ⟨e, _, _, h1⟩ <;> rw [h1] <;>
    simp [reportCount, List.count_append, List.count_singleton]

/-- A node whose nonce fails the check of line 39 is never materialized by later events. -/
theorem execCount_handleEvents_of_fails {s : State} {p : Nat} {e : Element}
    (he : s.document[p]? = some e) (hn : nonceCheckFails s.nonce e = true)
    (events : List Element) :
    execCount (handleEvents s events) p = execCount s p := by
  have key := handleEvents_induction
    (fun t => t.nonce = s.nonce ∧ (t.document[p]?).map Element.nonce = some e.nonce ∧
      execCount t p = execCount s p)
    (fun t done ht => ht)
    (fun t q eq ht _ _ => by
      refine ⟨(runInlineScript_nonce t q).trans ht.1,
        (runInlineScript_map_nonce t q p).trans ht.2.1, ?_⟩
      by_cases hq : q = p
      · subst hq
        cases h1 : t.document[q]? with
        | none => rw [runInlineScript_of_none h1]; exact ht.2.2
        | some e1 =>
          have hnonce : e1.nonce = e.nonce := by
            have := ht.2.1
            rw [h1] at this
            simpa using this
          have hf : nonceCheckFails t.nonce e1 = true := by
            simpa [nonceCheckFails, ht.1, hnonce] using hn
          rw [execCount_runInlineScript_fails h1 hf]
          exact ht.2.2
      · rw [execCount_runInlineScript_ne t hq]; exact ht.2.2)
    events s ⟨rfl, by rw [he]; rfl, rfl⟩
  exact key.2.2

/-- A reported position carries the done marker; a position whose id is not that of an after
script is reported at most once. -/
theorem reportCount_handleEvents (nonce : String) (doc : List Element) (events : List Element)
    (p : Nat) (e : Element) (he : doc[p]? = some e) :
    (0 < reportCount (handleEvents (init nonce doc) events) p →
        releasedAt (handleEvents (init nonce doc) events) p = true) ∧
      ((∀ handle, e.id ≠ handle ++ "-js-after") →
        reportCount (handleEvents (init nonce doc) events) p ≤ 1) := by
  have key := handleEvents_induction
    (fun t => (t.document[p]?).map Element.id = some e.id ∧
      (0 < reportCount t p → releasedAt t p = true) ∧
      ((∀ handle, e.id ≠ handle ++ "-js-after") → reportCount t p ≤ 1))
    (fun t done ht => ht)
    (fun t q eq ht heq hsel => by
      refine ⟨(runInlineScript_map_id t q p).trans ht.1, ?_, ?_⟩
      · by_cases hq : q = p
        · subst hq
          intro _
          exact runInlineScript_releasedAt heq
        · rw [reportCount_runInlineScript_ne t hq, releasedAt_runInlineScript_ne t hq]
          exact ht.2.1
      · intro hid
        by_cases hq : q = p
        · subst hq
          have hideq : eq.id = e.id := by
            have := ht.1
            rw [heq] at this
            simpa using this
          have hzero : reportCount t q = 0 := by
            rcases hsel with ⟨handle, id, hsid, ha⟩ | hb
            · exfalso
              obtain ⟨pre, hpre⟩ := selectorId_suffix hsid
              apply hid pre
              rw [← hideq, afterSelector_id ha, hpre]
            · by_contra hpos
              have hrel := ht.2.1 (Nat.pos_of_ne_zero hpos)
              simp only [beforeSelector, Bool.and_eq_true, Option.isNone_iff_eq_none] at hb
              simp [releasedAt, heq, hb.2] at hrel
          have := reportCount_runInlineScript_le t q
          omega
        · rw [reportCount_runInlineScript_ne t hq]
          exact ht.2.2 hid)
    events (init nonce doc)
    ⟨by simp [DelayedInlineScriptLoader.init, he], by simp [reportCount, DelayedInlineScriptLoader.init],
      by simp [reportCount, DelayedInlineScriptLoader.init]⟩
  exact ⟨key.2.1, key.2.2⟩

/-! ## The registry -/

theorem setHas_iff {set : List String} {x : String} : setHas set x = true ↔ x ∈ set := by
  simp [setHas]

theorem mem_setAdd {set : List String} {x y : String} :
    y ∈ setAdd set x ↔ y ∈ set ∨ y = x := by
  unfold setAdd
  split
  · rename_i h
    rw [setHas_iff] at h
    constructor
    · exact Or.inl
    · rintro (h1 | h1)
      · exact h1
      · exact h1 ▸ h
  · simp

theorem mem_foldl_setAdd {deps : List String} {set : List String} {y : String} :
    y ∈ deps.foldl setAdd set ↔ y ∈ set ∨ y ∈ deps := by
  induction deps generalizing set with
  | nil => simp
  | cons d rest ih =>
    rw [List.foldl_cons, ih, mem_setAdd, List.mem_cons]
    tauto

theorem mem_addDone {set : List String} {handle : String} {target : Element} {y : String} :
    y ∈ addDone set handle target ↔ y ∈ set ∨ y = handle ∨ y ∈ getDepsData target := by
  unfold addDone
  rw [mem_foldl_setAdd, mem_setAdd]
  tauto

theorem runReadyInlineScripts_doneDependencies (s : State) (pool : List Nat) :
    (runReadyInlineScripts s pool).doneDependencies = s.doneDependencies :=
  (runReadyInlineScripts_sameFrame s pool s (sameFrame_refl s)).2.1

theorem runAfterScript_cases (s : State) (target : Element) (handle : String) :
    runAfterScript s target handle = none ∨ runAfterScript s target handle = some s ∨
      ∃ p, runAfterScript s target handle = some (runInlineScript s p) := by
  unfold runAfterScript
  split
  · split
    · exact Or.inl rfl
    · split
      · exact Or.inr (Or.inl rfl)
      · split
        · rename_i p _ _
          exact Or.inr (Or.inr ⟨p, rfl⟩)
        · exact Or.inr (Or.inl rfl)
  · exact Or.inr (Or.inl rfl)

theorem runAfterScript_doneDependencies {s t : State} {target : Element} {handle : String}
    (h : runAfterScript s target handle = some t) :
    t.doneDependencies = s.doneDependencies := by
  rcases runAfterScript_cases s target handle with h1 | h1 | ⟨p, h1⟩ <;> rw [h1] at h
  · cases h
  · cases h; rfl
  · cases h; exact runInlineScript_doneDependencies _ _

theorem matchHandle_ne_empty {id handle : String} (h : matchHandle id = some handle) :
    id ≠ "" := by
  intro hid
  subst hid
  simp [matchHandle] at h

theorem onScriptLoad_of_no_match {s : State} {target : Element}
    (h : matchHandle target.id = none) : onScriptLoad s target = s := by
  unfold onScriptLoad
  split
  · rfl
  · rw [h]

theorem onScriptLoad_doneDependencies_of_match {s : State} {target : Element} {handle : String}
    (h : matchHandle target.id = some handle) :
    (onScriptLoad s target).doneDependencies = addDone s.doneDependencies handle target := by
  have hne := matchHandle_ne_empty h
  unfold onScriptLoad
  rw [if_neg (by simp [hne]), h]
  simp only []
  split
  · rfl
  · rename_i s2 h2
    rw [runReadyInlineScripts_doneDependencies, runAfterScript_doneDependencies h2]

theorem matchHandle_append_js {X : String} (hne : X ≠ "")
    (hlt : ∀ c ∈ X.data, isLineTerminator c = false) : matchHandle (X ++ "-js") = some X := by
  have hdata : (X ++ "-js").data = X.data ++ ['-', 'j', 's'] := by
    rw [String.data_append]
  have hlen : (X.data ++ ['-', 'j', 's']).length - 3 = X.data.length := by simp
  have hX : X.data ≠ [] := by
    intro h
    apply hne
    cases X
    simp_all
  have hall : (X.data.all fun c => !isLineTerminator c) = true := by
    rw [List.all_eq_true]
    intro c hc
    simp [hlt c hc]
  unfold matchHandle
  simp only [hdata, hlen, List.take_left, List.drop_left]
  simp [hX, hall]

theorem onScriptLoad_subset (s : State) (target : Element) :
    s.doneDependencies ⊆ (onScriptLoad s target).doneDependencies := by
  cases h : matchHandle target.id with
  | none => rw [onScriptLoad_of_no_match h]; exact fun _ hx => hx
  | some handle =>
    rw [onScriptLoad_doneDependencies_of_match h]
    intro x hx
    exact mem_addDone.2 (Or.inl hx)

theorem handleEvents_subset (events : List Element) :
    ∀ s : State, s.doneDependencies ⊆ (handleEvents s events).doneDependencies := by
  induction events with
  | nil => intro s x hx; exact hx
  | cons ev rest ih =>
    intro s x hx
    exact ih (onScriptLoad s ev) (onScriptLoad_subset s ev hx)

/-! ## Lookup by id -/

theorem instanceof_getElementById_iff (doc : List Element) (i : String) :
    instanceofHTMLScriptElement (getElementById doc i) = true ↔ FirstIsScript doc i := by
  induction doc with
  | nil =>
    constructor
    · intro h; simp [getElementById, instanceofHTMLScriptElement] at h
    · rintro ⟨p, e, he, _⟩; simp at he
  | cons a rest ih =>
    by_cases ha : a.id = i
    · have hget : getElementById (a :: rest) i = some a := by
        simp [getElementById, List.find?_cons, ha]
      rw [hget]
      constructor
      · intro h
        exact ⟨0, a, List.getElem?_cons_zero, ha, h, fun q hq => absurd hq (Nat.not_lt_zero q)⟩
      · rintro ⟨p, e, he, _, hs, hfirst⟩
        cases p with
        | zero =>
          simp at he
          subst he
          exact hs
        | succ n => exact absurd ha (hfirst 0 (Nat.succ_pos n) a List.getElem?_cons_zero)
    · have hget : getElementById (a :: rest) i = getElementById rest i := by
        simp [getElementById, List.find?_cons, ha]
      rw [hget, ih]
      constructor
      · rintro ⟨p, e, he, hid, hs, hfirst⟩
        refine ⟨p + 1, e, by simpa using he, hid, hs, ?_⟩
        intro q hq e1 he1
        cases q with
        | zero =>
          simp at he1
          subst he1
          exact ha
        | succ n => exact hfirst n (Nat.lt_of_succ_lt_succ hq) e1 (by simpa using he1)
      · rintro ⟨p, e, he, hid, hs, hfirst⟩
        cases p with
        | zero =>
          simp at he
          subst he
          exact absurd hid ha
        | succ n =>
          refine ⟨n, e, by simpa using he, hid, hs, ?_⟩
          intro q hq e1 he1
          exact hfirst (q + 1) (Nat.succ_lt_succ hq) e1 (by simpa using he1)

theorem isDependencyDone_eq_true_iff (s : State) (dep : String) :
    isDependencyDone s dep = true ↔
      dep ∈ s.doneDependencies ∨ ¬ FirstIsScript s.document (dep ++ "-js") := by
  rw [← instanceof_getElementById_iff, ← setHas_iff]
  unfold isDependencyDone
  cases setHas s.doneDependencies dep <;>
    cases instanceofHTMLScriptElement (getElementById s.document (dep ++ "-js")) <;> simp

theorem not_firstIsScript_of_no_id {doc : List Element} {i : String}
    (h : ∀ e ∈ doc, e.id ≠ i) : ¬ FirstIsScript doc i := by
  rintro ⟨p, e, he, hid, _⟩
  exact h e (List.getElem?_mem he) hid

/-! ## Teardown of the listener -/

theorem dispatchAll_of_not_listening (events : List PageEvent) :
    ∀ pg : Page, pg.listening = false → dispatchAll pg events = pg := by
  induction events with
  | nil => intro pg _; rfl
  | cons ev rest ih =>
    intro pg h
    have hstep : dispatch pg ev = pg := by
      cases ev with
      | elementLoad target => simp [dispatch, h]
      | windowLoad =>
        cases pg
        simp_all [dispatch]
    show dispatchAll (dispatch pg ev) rest = pg
    rw [hstep]
    exact ih pg h

/-! ## The pattern of line 92 -/

theorem matchHandle_eq_some {id handle : String} (h : matchHandle id = some handle) :
    id = handle ++ "-js" ∧ handle ≠ "" := by
  unfold matchHandle at h
  simp only [] at h
  split at h
  · rename_i hc
    have hh : String.mk (List.take (id.data.length - 3) id.data) = handle :=
      Option.some.inj h
    have hsplit := List.take_append_drop (id.data.length - 3) id.data
    rw [hc.1] at hsplit
    constructor
    · apply String.ext
      rw [String.data_append, ← hh, ← hsplit]
      simp
    · intro he
      apply hc.2.1
      rw [he] at hh
      exact congrArg String.data hh
  · cases h

theorem onScriptLoad_of_not_decorated {s : State} {target : Element}
    (h : ¬ ∃ handle : String, handle ≠ "" ∧ target.id = handle ++ "-js") :
    onScriptLoad s target = s := by
  cases hm : matchHandle target.id with
  | none => exact onScriptLoad_of_no_match hm
  | some handle =>
    have := matchHandle_eq_some hm
    exact absurd ⟨handle, this.2, this.1⟩ h

/-! ## Splitting the dependency attribute -/

theorem splitComma_ne_nil (cs : List Char) : splitComma cs ≠ [] := by
  cases cs with
  | nil => simp [splitComma]
  | cons c cs =>
    unfold splitComma
    split
    · simp
    · split <;> simp

theorem length_splitComma (cs : List Char) :
    (splitComma cs).length = cs.count ',' + 1 := by
  induction cs with
  | nil => simp [splitComma]
  | cons c cs ih =>
    unfold splitComma
    by_cases hc : c = ','
    · subst hc
      simp [ih]
    · rw [if_neg hc, List.count_cons_of_ne (fun h => hc h.symm)]
      cases hs : splitComma cs with
      | nil => exact absurd hs (splitComma_ne_nil cs)
      | cons f fs =>
        rw [hs] at ih
        simpa using ih

theorem not_mem_of_mem_splitComma (cs : List Char) :
    ∀ f ∈ splitComma cs, ',' ∉ f := by
  induction cs with
  | nil => simp [splitComma]
  | cons c cs ih =>
    unfold splitComma
    by_cases hc : c = ','
    · subst hc
      intro f hf
      rw [if_pos rfl, List.mem_cons] at hf
      rcases hf with rfl | hf
      · simp
      · exact ih f hf
    · rw [if_neg hc]
      cases hs : splitComma cs with
      | nil => exact absurd hs (splitComma_ne_nil cs)
      | cons g gs =>
        rw [hs] at ih
        intro f hf
        simp only [List.mem_cons] at hf
        rcases hf with rfl | hf
        · intro hmem
          rcases List.mem_cons.1 hmem with h | h
          · exact hc h.symm
          · exact ih g (List.mem_cons_self g gs) h
        · exact ih f (List.mem_cons_of_mem g hf)

theorem intercalate_cons_cons (sep a b : List Char) (l : List (List Char)) :
    sep.intercalate (a :: b :: l) = a ++ sep ++ sep.intercalate (b :: l) := by
  simp [List.intercalate, List.intersperse]

theorem intercalate_splitComma (cs : List Char) :
    [','].intercalate (splitComma cs) = cs := by
  induction cs with
  | nil => simp [splitComma, List.intercalate]
  | cons c cs ih =>
    unfold splitComma
    by_cases hc : c = ','
    · subst hc
      rw [if_pos rfl]
      cases hs : splitComma cs with
      | nil => exact absurd hs (splitComma_ne_nil cs)
      | cons f fs =>
        rw [intercalate_cons_cons, ← hs, ih]
        rfl
    · rw [if_neg hc]
      cases hs : splitComma cs with
      | nil => exact absurd hs (splitComma_ne_nil cs)
      | cons f fs =>
        rw [hs] at ih
        cases fs with
        | nil =>
          have hf : f = cs := by simpa [List.intercalate] using ih
          simp [List.intercalate, hf]
        | cons g gs =>
          rw [intercalate_cons_cons] at ih
          show [','].intercalate ((c :: f) :: g :: gs) = c :: cs
          rw [intercalate_cons_cons, ← ih]
          simp

theorem data_intercalate_go (sep : String) (l : List String) :
    ∀ acc : String, (String.intercalate.go acc sep l).data =
      acc.data ++ (l.map (fun a => sep.data ++ a.data)).flatten := by
  induction l with
  | nil => intro acc; simp [String.intercalate.go]
  | cons a rest ih =>
    intro acc
    simp [String.intercalate.go, ih, String.data_append]

theorem data_intercalate (sep : String) (l : List String) :
    (sep.intercalate l).data = sep.data.intercalate (l.map String.data) := by
  cases l with
  | nil => rfl
  | cons a rest =>
    show (String.intercalate.go a sep rest).data = _
    rw [data_intercalate_go]
    induction rest generalizing a with
    | nil => simp [List.intercalate]
    | cons b rest ih =>
      have h := ih b
      simp only [List.map_cons] at h ⊢
      rw [intercalate_cons_cons, ← h]
      simp

/-! ## Readiness under a growing registry -/

theorem isDependencyDone_mono {s t : State} (hsub : s.doneDependencies ⊆ t.doneDependencies)
    (hdoc : t.document.map Element.fixedPart = s.document.map Element.fixedPart)
    {dep : String} (h : isDependencyDone s dep = true) : isDependencyDone t dep = true := by
  rw [isDependencyDone_eq_true_iff, ← instanceof_getElementById_iff] at h ⊢
  rw [← instanceof_getElementById_map t.document, hdoc, instanceof_getElementById_map]
  rcases h with h | h
  · exact Or.inl (hsub h)
  · exact Or.inr h

theorem depsDoneAt_mono {s t : State} (hsub : s.doneDependencies ⊆ t.doneDependencies)
    (hdoc : t.document.map Element.fixedPart = s.document.map Element.fixedPart)
    {p : Nat} (h : depsDoneAt s p = true) : depsDoneAt t p = true := by
  have hq := getElem?_fixedPart hdoc p
  unfold depsDoneAt at h ⊢
  cases hs : s.document[p]? with
  | none => rw [hs] at h; cases h
  | some e =>
    cases ht : t.document[p]? with
    | none => rw [ht, hs] at hq; simp at hq
    | some e1 =>
      rw [ht, hs] at hq
      have hd : e1.wpDeps = e.wpDeps := by
        have := congrArg Element.wpDeps (Option.some.inj hq)
        simpa [Element.fixedPart] using this
      have hdeps : getDepsData e1 = getDepsData e := by simp [getDepsData, hd]
      rw [hs] at h
      simp only [hdeps, List.all_eq_true] at h ⊢
      intro dep hdep
      exact isDependencyDone_mono hsub hdoc (h dep hdep)

theorem handleEvents_fixedPart (s : State) (events : List Element) :
    (handleEvents s events).document.map Element.fixedPart =
      s.document.map Element.fixedPart :=
  handleEvents_induction
    (fun t => t.document.map Element.fixedPart = s.document.map Element.fixedPart)
    (fun _ _ ht => ht)
    (fun t p _ ht _ _ => (runInlineScript_fixedPart t p).trans ht) events s rfl

/-! ## The phases of one handler call -/

theorem releaseEffect_eq {s t : State} (hn : t.nonce = s.nonce)
    (hd : t.document.map Element.fixedPart = s.document.map Element.fixedPart) (p : Nat) :
    releaseEffect t p = releaseEffect s p :=
  releaseEffect_congr (s := { s with doneDependencies := t.doneDependencies }) ⟨hn, rfl, hd⟩ p

theorem runAfterScript_eq_none_iff (s : State) (target : Element) (handle : String) :
    runAfterScript s target handle = none ↔ selectorThrows target handle = true := by
  unfold runAfterScript selectorThrows
  cases hg : (target.isScript && (target.async || target.defer))
  · simp
  · cases hid : selectorId handle with
    | none => simp
    | some id =>
      simp only [if_true, Option.isNone_some, Bool.and_false]
      constructor
      · intro h
        split at h
        · cases h
        · split at h <;> cases h
      · intro h
        cases h

theorem afterPhase_of_some {s s2 : State} {target : Element} {handle : String}
    (h : runAfterScript { s with doneDependencies := addDone s.doneDependencies handle target }
      target handle = some s2) : afterPhase s target handle = s2 := by
  unfold afterPhase
  rw [h]

theorem afterPhase_of_throws {s : State} {target : Element} {handle : String}
    (h : selectorThrows target handle = true) :
    afterPhase s target handle =
      { s with doneDependencies := addDone s.doneDependencies handle target } := by
  unfold afterPhase
  rw [(runAfterScript_eq_none_iff _ target handle).2 h]

theorem onScriptLoad_of_match {s : State} {target : Element} {handle : String}
    (h : matchHandle target.id = some handle) :
    onScriptLoad s target =
      runReadyInlineScripts (afterPhase s target handle) (beforePool s target handle) := by
  have hne := matchHandle_ne_empty h
  unfold onScriptLoad
  rw [if_neg (by simp [hne]), h]
  simp only []
  cases hr : runAfterScript
      { s with doneDependencies := addDone s.doneDependencies handle target } target handle with
  | none =>
    have hthrows := (runAfterScript_eq_none_iff _ target handle).1 hr
    simp only [beforePool, hthrows, if_true, afterPhase_of_throws hthrows]
    rfl
  | some s2 =>
    have hthrows : selectorThrows target handle = false := by
      cases ht : selectorThrows target handle with
      | false => rfl
      | true =>
        rw [(runAfterScript_eq_none_iff _ target handle).2 ht] at hr
        cases hr
    simp only [beforePool, hthrows, afterPhase_of_some hr]
    rfl

theorem onScriptLoad_of_throws {s : State} {target : Element} {handle : String}
    (h : matchHandle target.id = some handle) (hthrows : selectorThrows target handle = true) :
    onScriptLoad s target =
      { s with doneDependencies := addDone s.doneDependencies handle target } := by
  rw [onScriptLoad_of_match h, afterPhase_of_throws hthrows]
  simp only [beforePool, hthrows, if_true]
  rfl

theorem afterTarget_selected {s : State} {target : Element} {handle : String} {p : Nat}
    (h : afterTarget s target handle = some p) :
    (target.isScript && (target.async || target.defer)) = true ∧
      ∃ id, selectorId handle = some id ∧
        querySelector s.document (afterSelector id) = some p ∧
        ∃ e, s.document[p]? = some e ∧ afterSelector id e = true ∧ e.isScript = true := by
  unfold afterTarget at h
  split at h
  · rename_i hg
    refine ⟨hg, ?_⟩
    cases hid : selectorId handle with
    | none => rw [hid] at h; cases h
    | some id =>
      rw [hid] at h
      simp only [] at h
      cases hq : querySelector s.document (afterSelector id) with
      | none => rw [hq] at h; cases h
      | some q =>
        obtain ⟨e, he, hs⟩ := querySelector_some hq
        rw [hq] at h
        simp only [] at h
        split at h
        · rename_i hinst
          rw [he] at hinst
          have hqp : q = p := Option.some.inj h
          rw [hqp] at he hq
          exact ⟨id, rfl, hq, e, he, hs, hinst⟩
        · cases h
  · cases h

theorem afterTarget_of_throws {s : State} {target : Element} {handle : String}
    (h : selectorThrows target handle = true) : afterTarget s target handle = none := by
  unfold selectorThrows at h
  simp only [Bool.and_eq_true, Option.isNone_iff_eq_none] at h
  unfold afterTarget
  simp only [Bool.and_eq_true]
  rw [if_pos h.1, h.2]

theorem afterPhase_eq (s : State) (target : Element) (handle : String) :
    afterPhase s target handle =
      match afterTarget s target handle with
      | none => { s with doneDependencies := addDone s.doneDependencies handle target }
      | some p =>
        runInlineScript { s with doneDependencies := addDone s.doneDependencies handle target }
          p := by
  unfold afterPhase runAfterScript afterTarget
  cases hg : (target.isScript && (target.async || target.defer)) with
  | false => simp
  | true =>
    cases hid : selectorId handle with
    | none => simp
    | some id =>
      cases hq : querySelector s.document (afterSelector id) with
      | none => simp [hq]
      | some p =>
        by_cases hi : instanceofHTMLScriptElement s.document[p]? = true
        · simp [hq, hi]
        · simp [hq, hi]

theorem afterPhase_doneDependencies (s : State) (target : Element) (handle : String) :
    (afterPhase s target handle).doneDependencies =
      addDone s.doneDependencies handle target := by
  rw [afterPhase_eq]
  split
  · rfl
  · exact runInlineScript_doneDependencies _ _

theorem afterPhase_nonce (s : State) (target : Element) (handle : String) :
    (afterPhase s target handle).nonce = s.nonce := by
  rw [afterPhase_eq]
  split
  · rfl
  · exact runInlineScript_nonce _ _

theorem afterPhase_fixedPart (s : State) (target : Element) (handle : String) :
    (afterPhase s target handle).document.map Element.fixedPart =
      s.document.map Element.fixedPart := by
  rw [afterPhase_eq]
  split
  · rfl
  · exact runInlineScript_fixedPart _ _

theorem afterPhase_trace (s : State) (target : Element) (handle : String) :
    (afterPhase s target handle).trace =
      s.trace ++ (afterTarget s target handle).toList.map (releaseEffect s) := by
  rw [afterPhase_eq]
  cases h : afterTarget s target handle with
  | none => simp
  | some p =>
    obtain ⟨_, _, _, _, e, he, _⟩ := afterTarget_selected h
    have he1 : ({ s with doneDependencies := addDone s.doneDependencies handle target } :
        State).document[p]? = some e := he
    simp only []
    rw [runInlineScript_trace he1]
    rfl

theorem onScriptLoad_trace {s : State} {target : Element} {handle : String}
    (h : matchHandle target.id = some handle) :
    (onScriptLoad s target).trace =
      (afterPhase s target handle).trace ++
        ((beforePool s target handle).filter (depsDoneAt (afterPhase s target handle))).map
          (releaseEffect s) := by
  rw [onScriptLoad_of_match h,
    runReadyInlineScripts_trace (afterPhase s target handle) _ _ (sameFrame_refl _)]
  have hfun : releaseEffect (afterPhase s target handle) = releaseEffect s :=
    funext (releaseEffect_eq (afterPhase_nonce s target handle)
      (afterPhase_fixedPart s target handle))
  rw [hfun]

theorem not_suffix_before_of_after (handle : String) :
    "-js-before".data.isSuffixOf (handle ++ "-js-after").data = false := by
  cases h : "-js-before".data.isSuffixOf (handle ++ "-js-after").data with
  | false => rfl
  | true =>
    rw [List.isSuffixOf_iff_suffix] at h
    obtain ⟨t, ht⟩ := h
    have h2 := congrArg List.getLast? ht
    simp [String.data_append] at h2

theorem beforeSelector_of_afterSelector {handle id : String} {e : Element}
    (hsid : selectorId handle = some id) (h : afterSelector id e = true) :
    beforeSelector e = false := by
  obtain ⟨pre, hpre⟩ := selectorId_suffix hsid
  have hid : e.id = pre ++ "-js-after" := (afterSelector_id h).trans hpre
  unfold beforeSelector
  rw [hid, not_suffix_before_of_after]
  simp

theorem afterPhase_document_of_before {s : State} {p : Nat} {F : Element}
    (hF : s.document[p]? = some F) (hb : beforeSelector F = true)
    (target : Element) (handle : String) :
    (afterPhase s target handle).document[p]? = some F := by
  rw [afterPhase_eq]
  cases h : afterTarget s target handle with
  | none => exact hF
  | some q =>
    obtain ⟨_, id, hsid, _, e, he, hs, _⟩ := afterTarget_selected h
    have hne : p ≠ q := by
      intro hpq
      subst hpq
      rw [hF] at he
      have hFe : F = e := Option.some.inj he
      rw [hFe, beforeSelector_of_afterSelector hsid hs] at hb
      cases hb
    simp only []
    rw [runInlineScript_document_ne _ hne]
    exact hF

theorem id_of_fixedPart {d d1 : List Element}
    (h : d1.map Element.fixedPart = d.map Element.fixedPart) {q : Nat} {e e1 : Element}
    (he : d[q]? = some e) (he1 : d1[q]? = some e1) : e1.id = e.id := by
  have hq := getElem?_fixedPart h q
  rw [he, he1] at hq
  have := congrArg Element.id (Option.some.inj hq)
  simpa [Element.fixedPart] using this

/-! ## The done marker is never cleared -/

theorem releasedAt_runInlineScript_mono (s : State) (p : Nat) {q : Nat}
    (h : releasedAt s q = true) : releasedAt (runInlineScript s p) q = true := by
  by_cases hq : p = q
  · subst hq
    cases he : s.document[p]? with
    | none => rw [runInlineScript_of_none he]; exact h
    | some e => exact runInlineScript_releasedAt he
  · rw [releasedAt_runInlineScript_ne s hq]; exact h

theorem releasedAt_handleEvents_mono (s : State) (events : List Element) {q : Nat}
    (h : releasedAt s q = true) : releasedAt (handleEvents s events) q = true :=
  handleEvents_induction (fun t => releasedAt t q = true) (fun _ _ ht => ht)
    (fun t p _ ht _ _ => releasedAt_runInlineScript_mono t p ht) events s h

theorem runReadyInlineScripts_releasedAt (s : State) (p : Nat) (pool : List Nat) :
    ∀ t, SameFrame s t → (p ∈ pool ∧ depsDoneAt s p = true) ∨ releasedAt t p = true →
      releasedAt (runReadyInlineScripts t pool) p = true := by
  induction pool with
  | nil =>
    intro t _ h
    rcases h with ⟨hm, _⟩ | h
    · cases hm
    · exact h
  | cons q rest ih =>
    intro t ht h
    unfold runReadyInlineScripts
    rw [depsDoneAt_congr ht q]
    rcases h with ⟨hm, hd⟩ | h
    · rcases List.mem_cons.1 hm with hpq | hrest
      · subst hpq
        rw [hd, if_pos rfl]
        obtain ⟨e, he⟩ := depsDoneAt_inRange ((depsDoneAt_congr ht p).trans hd)
        exact ih _ (sameFrame_runInlineScript ht p) (Or.inr (runInlineScript_releasedAt he))
      · split
        · exact ih _ (sameFrame_runInlineScript ht q) (Or.inl ⟨hrest, hd⟩)
        · exact ih _ ht (Or.inl ⟨hrest, hd⟩)
    · split
      · exact ih _ (sameFrame_runInlineScript ht q)
          (Or.inr (releasedAt_runInlineScript_mono t q h))
      · exact ih _ ht (Or.inr h)

theorem trace_handleEvents_init (nonce : String) (doc : List Element) (events : List Element) :
    ∀ eff ∈ (handleEvents (init nonce doc) events).trace,
      eff = releaseEffect (init nonce doc) eff.pos := by
  have key := handleEvents_induction
    (fun t => t.nonce = nonce ∧
      t.document.map Element.fixedPart = doc.map Element.fixedPart ∧
      ∀ eff ∈ t.trace, eff = releaseEffect (init nonce doc) eff.pos)
    (fun t done ht => ht)
    (fun t p e ht he _ => by
      refine ⟨(runInlineScript_nonce t p).trans ht.1,
        (runInlineScript_fixedPart t p).trans ht.2.1, ?_⟩
      intro eff heff
      rw [runInlineScript_trace he, List.mem_append, List.mem_singleton] at heff
      rcases heff with h | h
      · exact ht.2.2 eff h
      · have hinit : releaseEffect t p = releaseEffect (init nonce doc) p :=
          releaseEffect_eq (s := init nonce doc) ht.1 ht.2.1 p
        rw [h, pos_releaseEffect, hinit])
    events (init nonce doc) ⟨rfl, rfl, by simp [init]⟩
  exact key.2.2

theorem exists_of_fixedPart {d d1 : List Element}
    (h : d1.map Element.fixedPart = d.map Element.fixedPart) {q : Nat} {e1 : Element}
    (he1 : d1[q]? = some e1) : ∃ e, d[q]? = some e ∧ e.id = e1.id := by
  have hq := getElem?_fixedPart h q
  cases hd : d[q]? with
  | none => rw [hd, he1] at hq; simp at hq
  | some e => exact ⟨e, rfl, (id_of_fixedPart h hd he1).symm⟩

theorem mem_beforePool {s : State} {target : Element} {handle : String} {q : Nat} :
    q ∈ beforePool s target handle ↔
      selectorThrows target handle = false ∧
        ∃ e, (afterPhase s target handle).document[q]? = some e ∧ beforeSelector e = true := by
  unfold beforePool
  cases ht : selectorThrows target handle with
  | true => simp
  | false => simpa using mem_querySelectorAll

theorem beforePool_spec {s : State} {target : Element} {handle : String} {q : Nat}
    (hq : q ∈ beforePool s target handle) :
    ∃ e, (afterPhase s target handle).document[q]? = some e ∧ matchesScript e = true ∧
      e.hasSrc = false ∧ typeIsPlain e = true ∧ e.wpDeps.isSome = true ∧
      "-js-before".data.isSuffixOf e.id.data = true ∧ e.wpDone = none := by
  obtain ⟨e, he, hb⟩ := (mem_beforePool.1 hq).2
  refine ⟨e, he, ?_⟩
  simp only [beforeSelector, Bool.and_eq_true, Bool.not_eq_true', beq_iff_eq,
    Option.isNone_iff_eq_none] at hb
  exact ⟨hb.1.1.1.1.1, hb.1.1.1.1.2, hb.1.1.1.2, hb.1.1.2, hb.1.2, hb.2⟩

theorem drop_trace_onScriptLoad {s : State} {target : Element} {handle : String}
    (h : matchHandle target.id = some handle) :
    (onScriptLoad s target).trace.drop s.trace.length =
      (afterTarget s target handle).toList.map (releaseEffect s) ++
        ((beforePool s target handle).filter (depsDoneAt (afterPhase s target handle))).map
          (releaseEffect s) := by
  rw [onScriptLoad_trace h, afterPhase_trace, List.append_assoc, List.drop_left]

theorem append_after_cancel {G H : String} (h : G ++ "-js-after" = H ++ "-js-after") :
    G = H := by
  have hd := congrArg String.data h
  rw [String.data_append, String.data_append] at hd
  exact String.ext (List.append_cancel_right hd)

/-! ## Reports across events -/

theorem handleEvents_nonce (s : State) (events : List Element) :
    (handleEvents s events).nonce = s.nonce :=
  handleEvents_induction (fun t => t.nonce = s.nonce) (fun _ _ ht => ht)
    (fun t p _ ht _ _ => (runInlineScript_nonce t p).trans ht) events s rfl

theorem reportCount_le_runInlineScript (t : State) (q p : Nat) :
    reportCount t p ≤ reportCount (runInlineScript t q) p := by
  rcases runInlineScript_cases t q with ⟨_, h1⟩ | ⟨e, _, _, h1⟩ | ⟨e, _, _, h1⟩ <;> rw [h1] <;>
    simp [reportCount, List.count_append]

theorem reportCount_le_handleEvents (s : State) (events : List Element) (p : Nat) :
    reportCount s p ≤ reportCount (handleEvents s events) p :=
  handleEvents_induction (fun t => reportCount s p ≤ reportCount t p) (fun _ _ ht => ht)
    (fun t q _ ht _ _ => Nat.le_trans ht (reportCount_le_runInlineScript t q p)) events s
    (Nat.le_refl _)

theorem handleEvents_append (s : State) (first later : List Element) :
    handleEvents s (first ++ later) = handleEvents (handleEvents s first) later := by
  simp [handleEvents, List.foldl_append]

theorem element_handleEvents {s : State} {p : Nat} {e : Element} (he : s.document[p]? = some e)
    (events : List Element) :
    ∃ e1, (handleEvents s events).document[p]? = some e1 ∧ e1.nonce = e.nonce ∧
      e1.id = e.id := by
  have hfp := handleEvents_fixedPart s events
  have hq := getElem?_fixedPart hfp p
  cases h1 : (handleEvents s events).document[p]? with
  | none => rw [h1, he] at hq; simp at hq
  | some e1 =>
    rw [h1, he] at hq
    have hfix : e1.fixedPart = e.fixedPart := Option.some.inj hq
    refine ⟨e1, rfl, ?_, ?_⟩
    · have := congrArg Element.nonce hfix
      simpa [Element.fixedPart] using this
    · have := congrArg Element.id hfix
      simpa [Element.fixedPart] using this

theorem reportCount_runInlineScript_fails {t : State} {p : Nat} {e : Element}
    (he : t.document[p]? = some e) (hn : nonceCheckFails t.nonce e = true) :
    reportCount (runInlineScript t p) p = reportCount t p + 1 := by
  rw [runInlineScript_of_fails he hn]
  simp [reportCount, List.count_append, List.count_singleton]

theorem mem_trace_onScriptLoad_of_pool {s : State} {target : Element} {handle : String}
    {p : Nat} (hm : matchHandle target.id = some handle)
    (hpool : p ∈ beforePool s target handle)
    (hdone : depsDoneAt (afterPhase s target handle) p = true) :
    releaseEffect s p ∈ (onScriptLoad s target).trace := by
  rw [onScriptLoad_trace hm]
  exact List.mem_append_right _
    (List.mem_map_of_mem _ (List.mem_filter.2 ⟨hpool, hdone⟩))

theorem releasedAt_onScriptLoad_of_pool {s : State} {target : Element} {handle : String}
    {p : Nat} (hm : matchHandle target.id = some handle)
    (hpool : p ∈ beforePool s target handle)
    (hdone : depsDoneAt (afterPhase s target handle) p = true) :
    releasedAt (onScriptLoad s target) p = true := by
  rw [onScriptLoad_of_match hm]
  exact runReadyInlineScripts_releasedAt _ p _ _ (sameFrame_refl _) (Or.inl ⟨hpool, hdone⟩)

theorem id_not_after_of_pool {s : State} {target : Element} {handle : String} {p : Nat}
    {e : Element} (he : s.document[p]? = some e) (hpool : p ∈ beforePool s target handle) :
    ∀ h : String, e.id ≠ h ++ "-js-after" := by
  intro h hid
  obtain ⟨e2, he2, _, _, _, _, hsuf, _⟩ := beforePool_spec hpool
  have hid2 := id_of_fixedPart (afterPhase_fixedPart s target handle) he he2
  rw [hid2, hid, not_suffix_before_of_after] at hsuf
  cases hsuf

theorem set_set_same (doc : List Element) (p : Nat) (a : Element) :
    (doc.set p a).set p a = doc.set p a := by
  apply List.ext_getElem?
  intro q
  by_cases hq : p = q
  · subst hq
    by_cases hlt : p < doc.length
    · simp [List.getElem?_set, hlt]
    · simp [List.getElem?_set, hlt]
  · simp [List.getElem?_set, hq]

/-! ## The claims -/

/-- C1 (at-most-once execution): whatever the initial document, the page nonce and the
sequence of load events handled by `onScriptLoad`, every position of the document is
materialized as an executable script at most once over the whole sequence. -/
theorem at_most_once (nonce : String) (doc : List Element) (events : List Element) (p : Nat) :
    execCount (handleEvents (init nonce doc) events) p ≤ 1 :=
  (execOnce_handleEvents (execOnce_init nonce doc) events p).1

/-- C2 (document-order release): one call of `runReadyInlineScripts` releases exactly the
nodes of the pool whose dependencies are all done (`isDependencyDone`) at the start of the
call, and it releases them in pool order: the effects the call logs are the effects of those
nodes, one each, in the order of the pool, so an eligible node that comes earlier in the pool
is released before an eligible node that comes later. -/
theorem document_order_release (s : State) (pool : List Nat) :
    (runReadyInlineScripts s pool).trace =
        s.trace ++ (pool.filter (depsDoneAt s)).map (releaseEffect s) ∧
      ((runReadyInlineScripts s pool).trace.drop s.trace.length).map Effect.pos =
        pool.filter (depsDoneAt s) ∧
      (pool.filter (depsDoneAt s)).Sublist pool := by
  have h := runReadyInlineScripts_trace s pool s (sameFrame_refl s)
  refine ⟨h, ?_, List.filter_sublist pool⟩
  rw [h, List.drop_left, List.map_map]
  have hid : Effect.pos ∘ releaseEffect s = fun q => q :=
    funext (fun q => pos_releaseEffect s q)
  rw [hid]
  simp

/-- C4 (release decision): `runInlineScript` on a node materializes it as an executable
script exactly when the page nonce is empty or equal to the node's own nonce, logging that one
effect; otherwise it materializes nothing and logs exactly one report, leaving the placeholder
in place. On both paths the node carries the done marker afterwards. -/
theorem release_decision (s : State) (p : Nat) (e : Element) (h : s.document[p]? = some e) :
    ((s.nonce = "" ∨ s.nonce = e.nonce) →
        (runInlineScript s p).trace = s.trace ++ [Effect.executed p] ∧
        (runInlineScript s p).document[p]? =
          some { e with wpDone := some "1", type := "text/javascript" }) ∧
      (¬ (s.nonce = "" ∨ s.nonce = e.nonce) →
        (runInlineScript s p).trace = s.trace ++ [Effect.refused p] ∧
        (runInlineScript s p).document[p]? = some { e with wpDone := some "1" }) ∧
      releasedAt (runInlineScript s p) p = true := by
  refine ⟨?_, ?_, runInlineScript_releasedAt h⟩
  · intro hok
    rw [runInlineScript_of_passes h ((nonceCheckFails_eq_false_iff _ _).2 hok)]
    exact ⟨rfl, getElem?_set_same _ h⟩
  · intro hbad
    rw [runInlineScript_of_fails h ((nonceCheckFails_eq_true_iff _ _).2 hbad)]
    exact ⟨rfl, getElem?_set_same _ h⟩

/-- Witness of C4: a fragment whose nonce is the page nonce is materialized. -/
theorem release_decision_witness :
    (runInlineScript (init "abc" [fragment "u-js-after" none "abc"]) 0).trace =
      [Effect.executed 0] :=
  ((release_decision (init "abc" [fragment "u-js-after" none "abc"]) 0
    (fragment "u-js-after" none "abc") rfl).1 (Or.inr rfl)).1

/-- Counterexample to C3 as stated. With no page nonce, a fragment whose nonce differs from it
is executed; and with a page nonce, an after script with another nonce is reported twice when
the load event of its unit is handled twice. -/
theorem security_refusal_counterexample :
    (fragment "f-js-before" (some "ghost") "zzz").nonce ≠ "" ∧
      execCount (handleEvents (init "" [fragment "f-js-before" (some "ghost") "zzz"])
        [scriptEl "x-js"]) 0 = 1 ∧
      (fragment "u-js-after" none "zzz").nonce ≠ "abc" ∧
      reportCount (handleEvents (init "abc" [deferredUnit "u-js" none,
        fragment "u-js-after" none "zzz"])
        [deferredUnit "u-js" none, deferredUnit "u-js" none]) 1 = 2 := by
  decide

/-- C3, amended (security refusal across passes): when the page nonce is set, a node whose
nonce differs from it is never materialized, whatever the sequence of load events. Every
release of the node marks it and reports it once more; once reported it carries the done
marker; when its id is not that of an after script it is reported at most once over the whole
sequence. So a before script that a pool scan meets with its dependencies done is marked and
has exactly one report after that event and after every later event. -/
theorem security_refusal (nonce : String) (doc : List Element) (events : List Element)
    (p : Nat) (e : Element) (hset : nonce ≠ "") (he : doc[p]? = some e)
    (hdiff : e.nonce ≠ nonce) :
    execCount (handleEvents (init nonce doc) events) p = 0 ∧
      (0 < reportCount (handleEvents (init nonce doc) events) p →
        releasedAt (handleEvents (init nonce doc) events) p = true) ∧
      ((∀ handle, e.id ≠ handle ++ "-js-after") →
        reportCount (handleEvents (init nonce doc) events) p ≤ 1) ∧
      (reportCount (runInlineScript (handleEvents (init nonce doc) events) p) p =
          reportCount (handleEvents (init nonce doc) events) p + 1 ∧
        releasedAt (runInlineScript (handleEvents (init nonce doc) events) p) p = true ∧
        execCount (runInlineScript (handleEvents (init nonce doc) events) p) p = 0) ∧
      (∀ (target : Element) (handle : String) (later : List Element),
        matchHandle target.id = some handle →
        p ∈ beforePool (handleEvents (init nonce doc) events) target handle →
        depsDoneAt (afterPhase (handleEvents (init nonce doc) events) target handle) p = true →
        reportCount (handleEvents (handleEvents (init nonce doc) events) (target :: later)) p =
            1 ∧
          releasedAt (handleEvents (handleEvents (init nonce doc) events) (target :: later)) p =
            true) := by
  have hf : nonceCheckFails (init nonce doc).nonce e = true :=
    (nonceCheckFails_eq_true_iff _ _).2 (by
      rintro (h | h)
      · exact hset h
      · exact hdiff h.symm)
  have hinit : (init nonce doc).document[p]? = some e := he
  have h1 := execCount_handleEvents_of_fails hinit hf events
  have hzero : execCount (handleEvents (init nonce doc) events) p = 0 := by
    rw [h1]
    simp [execCount, init]
  have h2 := reportCount_handleEvents nonce doc events p e he
  obtain ⟨e1, he1, hn1, hid1⟩ := element_handleEvents hinit events
  have hf1 : nonceCheckFails (handleEvents (init nonce doc) events).nonce e1 = true := by
    rw [handleEvents_nonce]
    simpa [nonceCheckFails, hn1] using hf
  refine ⟨hzero, h2.1, h2.2, ⟨reportCount_runInlineScript_fails he1 hf1,
    runInlineScript_releasedAt he1, ?_⟩, ?_⟩
  · rw [execCount_runInlineScript_fails he1 hf1]
    exact hzero
  · intro target handle later hm hpool hdone
    have hstep : handleEvents (handleEvents (init nonce doc) events) (target :: later) =
        handleEvents (onScriptLoad (handleEvents (init nonce doc) events) target) later := rfl
    have hrefused : releaseEffect (handleEvents (init nonce doc) events) p =
        Effect.refused p := by
      simp [releaseEffect, he1, hf1]
    have hmem := mem_trace_onScriptLoad_of_pool hm hpool hdone
    rw [hrefused] at hmem
    have hone : 1 ≤ reportCount (onScriptLoad (handleEvents (init nonce doc) events) target)
        p := List.count_pos_iff.2 hmem
    have hmono := reportCount_le_handleEvents
      (onScriptLoad (handleEvents (init nonce doc) events) target) later p
    have hnot : ∀ h : String, e.id ≠ h ++ "-js-after" := by
      intro h hid
      exact id_not_after_of_pool he1 hpool h (hid1.trans hid)
    have hle := (reportCount_handleEvents nonce doc (events ++ target :: later) p e he).2 hnot
    rw [handleEvents_append, hstep] at hle
    rw [hstep]
    refine ⟨by omega, ?_⟩
    exact releasedAt_handleEvents_mono _ later
      (releasedAt_onScriptLoad_of_pool hm hpool hdone)

/-- Witness of C3, amended: a before script with a foreign nonce is met by the pool scan of
the event of `x-js`; after that event and the next it has exactly one report. -/
theorem security_refusal_witness :
    reportCount (handleEvents (handleEvents (init "abc"
        [fragment "f-js-before" (some "ghost") "zzz"]) []) [scriptEl "x-js", scriptEl "y-js"])
        0 = 1 ∧
      releasedAt (handleEvents (handleEvents (init "abc"
        [fragment "f-js-before" (some "ghost") "zzz"]) []) [scriptEl "x-js", scriptEl "y-js"])
        0 = true :=
  (security_refusal "abc" [fragment "f-js-before" (some "ghost") "zzz"] [] 0
    (fragment "f-js-before" (some "ghost") "zzz") (by decide) rfl (by decide)).2.2.2.2
    (scriptEl "x-js") "x" [scriptEl "y-js"] (by decide) (by decide) (by decide)

/-- Counterexample to C5 as stated: with no page nonce, a fragment that has no nonce either is
materialized, not refused. -/
theorem absent_token_counterexample :
    (fragment "u-js-after" none "").nonce = "" ∧
      (runInlineScript (init "" [fragment "u-js-after" none ""]) 0).trace =
        [Effect.executed 0] := by
  decide

/-- C5, amended (absent token is refused): when the page nonce is set, `runInlineScript` on a
node that has no nonce logs one report and nothing else, leaves the placeholder in place with
the done marker, and no later sequence of load events materializes the node. -/
theorem absent_token_refused (s : State) (p : Nat) (e : Element)
    (he : s.document[p]? = some e) (habsent : e.nonce = "") (hset : s.nonce ≠ "") :
    (runInlineScript s p).trace = s.trace ++ [Effect.refused p] ∧
      (runInlineScript s p).document[p]? = some { e with wpDone := some "1" } ∧
      releasedAt (runInlineScript s p) p = true ∧
      ∀ events, execCount (handleEvents (runInlineScript s p) events) p = execCount s p := by
  have hf : nonceCheckFails s.nonce e = true :=
    (nonceCheckFails_eq_true_iff _ _).2 (by
      rintro (h | h)
      · exact hset h
      · exact hset (h.trans habsent))
  have hdoc : (runInlineScript s p).document[p]? = some { e with wpDone := some "1" } := by
    rw [runInlineScript_of_fails he hf]
    exact getElem?_set_same _ he
  refine ⟨?_, hdoc, runInlineScript_releasedAt he, ?_⟩
  · rw [runInlineScript_of_fails he hf]
  · intro events
    have hf1 : nonceCheckFails (runInlineScript s p).nonce { e with wpDone := some "1" } = true := by
      rw [runInlineScript_nonce]; exact hf
    rw [execCount_handleEvents_of_fails hdoc hf1 events, execCount_runInlineScript_fails he hf]

/-- Witness of C5, amended: a fragment without nonce on a page whose nonce is set. -/
theorem absent_token_refused_witness :
    (runInlineScript (init "abc" [fragment "u-js-after" none ""]) 0).trace =
      [Effect.refused 0] :=
  (absent_token_refused (init "abc" [fragment "u-js-after" none ""]) 0
    (fragment "u-js-after" none "") rfl rfl (by decide)).1

/-- Counterexample to C6 as stated: a refused fragment carries the done marker, and
`runInlineScript` on it again is not a no-op, it logs a second report. -/
theorem release_idempotence_counterexample :
    releasedAt (runInlineScript (init "abc" [fragment "u-js-after" none "zzz"]) 0) 0 = true ∧
      runInlineScript (runInlineScript (init "abc" [fragment "u-js-after" none "zzz"]) 0) 0 ≠
        runInlineScript (init "abc" [fragment "u-js-after" none "zzz"]) 0 ∧
      reportCount
        (runInlineScript (runInlineScript (init "abc" [fragment "u-js-after" none "zzz"]) 0) 0)
        0 = 2 := by
  decide

/-- C6, amended (release of a released fragment): `runInlineScript` does not test the done
marker. On a node that already carries it, the call leaves the registry, the page nonce, every
other node and the done marker of every node as they were, and releasing twice gives the same
registry and document as releasing once. But the call is not a no-op: when the nonce check
fails it reports once more, every time, and leaves the placeholder in place; when the check
passes it reports nothing and puts the `text/javascript` clone in place. -/
theorem release_of_released (s : State) (p : Nat) (e : Element)
    (he : s.document[p]? = some e) (hdone : e.wpDone.isSome = true) :
    (runInlineScript s p).doneDependencies = s.doneDependencies ∧
      (runInlineScript s p).nonce = s.nonce ∧
      (∀ q, q ≠ p → (runInlineScript s p).document[q]? = s.document[q]?) ∧
      (∀ q, releasedAt (runInlineScript s p) q = releasedAt s q) ∧
      ((runInlineScript (runInlineScript s p) p).document = (runInlineScript s p).document ∧
        (runInlineScript (runInlineScript s p) p).doneDependencies =
          (runInlineScript s p).doneDependencies) ∧
      (nonceCheckFails s.nonce e = true →
        (runInlineScript s p).trace = s.trace ++ [Effect.refused p] ∧
        reportCount (runInlineScript s p) p = reportCount s p + 1 ∧
        reportCount (runInlineScript (runInlineScript s p) p) p = reportCount s p + 2 ∧
        (runInlineScript s p).document[p]? = some { e with wpDone := some "1" }) ∧
      (nonceCheckFails s.nonce e = false →
        reportCount (runInlineScript s p) p = reportCount s p ∧
        (runInlineScript s p).document[p]? =
          some { e with wpDone := some "1", type := "text/javascript" }) := by
  refine ⟨runInlineScript_doneDependencies s p, runInlineScript_nonce s p,
    fun q hq => runInlineScript_document_ne s hq, ?_, ?_, ?_, ?_⟩
  · intro q
    by_cases hq : q = p
    · subst hq
      rw [runInlineScript_releasedAt he]
      simp [releasedAt, he, hdone]
    · exact releasedAt_runInlineScript_ne s (Ne.symm hq)
  · refine ⟨?_, by rw [runInlineScript_doneDependencies, runInlineScript_doneDependencies]⟩
    cases hf : nonceCheckFails s.nonce e
    · have h1 := runInlineScript_of_passes he hf
      have he2 : (runInlineScript s p).document[p]? =
          some { e with wpDone := some "1", type := "text/javascript" } := by
        rw [h1]; exact getElem?_set_same _ he
      have hf2 : nonceCheckFails (runInlineScript s p).nonce
          { e with wpDone := some "1", type := "text/javascript" } = false := by
        rw [runInlineScript_nonce]; exact hf
      rw [runInlineScript_of_passes he2 hf2, h1]
      exact set_set_same _ _ _
    · have h1 := runInlineScript_of_fails he hf
      have he2 : (runInlineScript s p).document[p]? = some { e with wpDone := some "1" } := by
        rw [h1]; exact getElem?_set_same _ he
      have hf2 : nonceCheckFails (runInlineScript s p).nonce { e with wpDone := some "1" } =
          true := by
        rw [runInlineScript_nonce]; exact hf
      rw [runInlineScript_of_fails he2 hf2, h1]
      exact set_set_same _ _ _
  · intro hf
    have h1 := runInlineScript_of_fails he hf
    have he2 : (runInlineScript s p).document[p]? = some { e with wpDone := some "1" } := by
      rw [h1]; exact getElem?_set_same _ he
    have hf2 : nonceCheckFails (runInlineScript s p).nonce { e with wpDone := some "1" } =
        true := by
      rw [runInlineScript_nonce]; exact hf
    refine ⟨by rw [h1], reportCount_runInlineScript_fails he hf, ?_, he2⟩
    rw [reportCount_runInlineScript_fails he2 hf2, reportCount_runInlineScript_fails he hf]
  · intro hf
    rw [runInlineScript_of_passes he hf]
    refine ⟨?_, getElem?_set_same _ he⟩
    simp [reportCount, List.count_append, List.count_singleton]

/-- Witness of C6, amended: the refused fragment of the counterexample, released again. -/
theorem release_of_released_witness :
    reportCount (runInlineScript
      (runInlineScript (init "abc" [fragment "u-js-after" none "zzz"]) 0) 0) 0 =
      reportCount (runInlineScript (init "abc" [fragment "u-js-after" none "zzz"]) 0) 0 + 1 :=
  ((release_of_released (runInlineScript (init "abc" [fragment "u-js-after" none "zzz"]) 0) 0
    { fragment "u-js-after" none "zzz" with wpDone := some "1" } (by decide) rfl).2.2.2.2.2.1
    (by decide)).2.1

/-- C7 (monotonic registry): `doneDependencies` before a call of `onScriptLoad` is a subset of
`doneDependencies` after it, so a handle that is complete stays complete, over one event and
over any sequence of events; `runInlineScript` and `runReadyInlineScripts` do not write the
registry at all. -/
theorem registry_monotone (s : State) (target : Element) :
    s.doneDependencies ⊆ (onScriptLoad s target).doneDependencies ∧
      (∀ dep, setHas s.doneDependencies dep = true →
        setHas (onScriptLoad s target).doneDependencies dep = true) ∧
      (∀ events, s.doneDependencies ⊆ (handleEvents s events).doneDependencies) ∧
      (∀ events dep, setHas s.doneDependencies dep = true →
        setHas (handleEvents s events).doneDependencies dep = true) ∧
      (∀ p, (runInlineScript s p).doneDependencies = s.doneDependencies) ∧
      (∀ pool, (runReadyInlineScripts s pool).doneDependencies = s.doneDependencies) := by
  refine ⟨onScriptLoad_subset s target, ?_, fun events => handleEvents_subset events s, ?_,
    runInlineScript_doneDependencies s, runReadyInlineScripts_doneDependencies s⟩
  · intro dep h
    exact setHas_iff.2 (onScriptLoad_subset s target (setHas_iff.1 h))
  · intro events dep h
    exact setHas_iff.2 (handleEvents_subset events s (setHas_iff.1 h))

/-- Counterexample to C8 as stated: in a document where an element that is not a script and a
script element share the id `x-js`, `getElementById` returns the one that comes first, so
`isDependencyDone` says that `x` is done although a script element with id `x-js` exists and
`x` is not in the registry. -/
theorem satisfaction_rule_counterexample :
    scriptEl "x-js" ∈ (init "" [nonScriptEl "x-js", scriptEl "x-js"]).document ∧
      (scriptEl "x-js").isScript = true ∧ (scriptEl "x-js").id = "x" ++ "-js" ∧
      "x" ∉ (init "" [nonScriptEl "x-js", scriptEl "x-js"]).doneDependencies ∧
      isDependencyDone (init "" [nonScriptEl "x-js", scriptEl "x-js"]) "x" = true := by
  decide

/-- C8, amended (satisfaction rule): `isDependencyDone dep` is true exactly when `dep` is in
the registry or the first element in document order whose id is `dep ++ "-js"` is not a script
element, which includes the case that no element has that id; it is false exactly when `dep`
is not in the registry and that first element is a script element. When at most one element
has the id, this is the rule about the existence of a script element with that id. A fragment
whose only dependency is `ghost`, in a document with no element `ghost-js`, is released by the
first scan that meets it. -/
theorem satisfaction_rule (s : State) (dep : String) :
    (isDependencyDone s dep = true ↔
        dep ∈ s.doneDependencies ∨ ¬ FirstIsScript s.document (dep ++ "-js")) ∧
      (isDependencyDone s dep = false ↔
        dep ∉ s.doneDependencies ∧ FirstIsScript s.document (dep ++ "-js")) ∧
      ((∀ e ∈ s.document, e.id ≠ dep ++ "-js") → isDependencyDone s dep = true) ∧
      ((∀ (p q : Nat) (e1 e2 : Element), s.document[p]? = some e1 → s.document[q]? = some e2 →
          e1.id = dep ++ "-js" → e2.id = dep ++ "-js" → p = q) →
        (isDependencyDone s dep = true ↔
          dep ∈ s.doneDependencies ∨
            ¬ ∃ e ∈ s.document, e.isScript = true ∧ e.id = dep ++ "-js")) ∧
      (∀ (p : Nat) (e : Element), s.document[p]? = some e → getDepsData e = ["ghost"] →
        (∀ x ∈ s.document, x.id ≠ "ghost" ++ "-js") →
        (runReadyInlineScripts s [p]).trace = s.trace ++ [releaseEffect s p]) := by
  have htrue := isDependencyDone_eq_true_iff s dep
  refine ⟨htrue, ?_, ?_, ?_, ?_⟩
  · constructor
    · intro h
      have hn : ¬ (dep ∈ s.doneDependencies ∨ ¬ FirstIsScript s.document (dep ++ "-js")) := by
        rw [← htrue, h]; simp
      exact ⟨fun hm => hn (Or.inl hm), Classical.not_not.1 (fun hf => hn (Or.inr hf))⟩
    · rintro ⟨hm, hf⟩
      cases hd : isDependencyDone s dep
      · rfl
      · rcases htrue.1 hd with h1 | h1
        · exact absurd h1 hm
        · exact absurd hf h1
  · intro h
    exact htrue.2 (Or.inr (not_firstIsScript_of_no_id h))
  · intro huniq
    rw [htrue]
    have hiff : FirstIsScript s.document (dep ++ "-js") ↔
        ∃ e ∈ s.document, e.isScript = true ∧ e.id = dep ++ "-js" := by
      constructor
      · rintro ⟨p, e, he, hid, hs, _⟩
        exact ⟨e, List.getElem?_mem he, hs, hid⟩
      · rintro ⟨e, hmem, hs, hid⟩
        obtain ⟨p, hp⟩ := List.getElem?_of_mem hmem
        refine ⟨p, e, hp, hid, hs, ?_⟩
        intro q hq e1 he1 hid1
        have := huniq q p e1 e he1 hp hid1 hid
        omega
    rw [hiff]
  · intro p e he hdeps hno
    have hdone : depsDoneAt s p = true := by
      unfold depsDoneAt
      rw [he]
      simp only [hdeps, List.all_cons, List.all_nil, Bool.and_true]
      exact (isDependencyDone_eq_true_iff s "ghost").2
        (Or.inr (not_firstIsScript_of_no_id hno))
    have h := runReadyInlineScripts_trace s [p] s (sameFrame_refl s)
    simpa [List.filter_cons, hdone] using h

/-- Counterexample to C9 as stated: the handle `"a\nb"` is not empty, yet the load event of
the script with id `"a\nb-js"` adds nothing to the registry, because `.` in the pattern of
line 92 does not match a line feed. -/
theorem propagation_counterexample :
    (scriptEl "a\nb-js").id = "a\nb" ++ "-js" ∧ ("a\nb" : String) ≠ "" ∧
      (onScriptLoad (init "" []) (scriptEl "a\nb-js")).doneDependencies = [] := by
  decide

/-- C9, amended (propagation): for a load event whose target has the id `X ++ "-js"`, with `X`
not empty and free of line terminators, the registry after `onScriptLoad` contains `X` and
every dependency declared on the target, and it is exactly the registry before together with
`X` and those dependencies. -/
theorem propagation (s : State) (target : Element) (X : String)
    (hid : target.id = X ++ "-js") (hne : X ≠ "")
    (hlt : ∀ c ∈ X.data, isLineTerminator c = false) :
    X ∈ (onScriptLoad s target).doneDependencies ∧
      (∀ dep ∈ getDepsData target, dep ∈ (onScriptLoad s target).doneDependencies) ∧
      (∀ y, y ∈ (onScriptLoad s target).doneDependencies ↔
        y ∈ s.doneDependencies ∨ y = X ∨ y ∈ getDepsData target) := by
  have hm : matchHandle target.id = some X := by
    rw [hid]; exact matchHandle_append_js hne hlt
  rw [onScriptLoad_doneDependencies_of_match hm]
  exact ⟨mem_addDone.2 (Or.inr (Or.inl rfl)),
    fun dep hdep => mem_addDone.2 (Or.inr (Or.inr hdep)), fun y => mem_addDone⟩

/-- Witness of C9, amended: the unit `x` declares the dependencies `a` and `b`. -/
theorem propagation_witness :
    "a" ∈ (onScriptLoad (init "" []) (deferredUnit "x-js" (some "a,b"))).doneDependencies ∧
      "b" ∈ (onScriptLoad (init "" []) (deferredUnit "x-js" (some "a,b"))).doneDependencies :=
  have h := propagation (init "" []) (deferredUnit "x-js" (some "a,b")) "x" rfl (by decide)
    (by decide)
  ⟨h.2.1 "a" (by decide), h.2.1 "b" (by decide)⟩

/-- C10, the code at the failing input: the load event of an element that is not a script but
has the id `foo-js` passes the guard of line 88, adds `foo` to the registry and releases the
before script that waits for `foo`. -/
theorem non_script_event_not_ignored :
    (nonScriptEl "foo-js").isScript = false ∧
      (onScriptLoad (init "" [scriptEl "foo-js", nonScriptEl "foo-js",
        fragment "bar-js-before" (some "foo") ""]) (nonScriptEl "foo-js")).doneDependencies =
        ["foo"] ∧
      (onScriptLoad (init "" [scriptEl "foo-js", nonScriptEl "foo-js",
        fragment "bar-js-before" (some "foo") ""]) (nonScriptEl "foo-js")).trace =
        [Effect.executed 2] := by
  decide

/-- C13 (teardown): the window `load` event removes the listener; from then on no element
`load` event changes the registry, the document or the effect log, so a fragment that is not
released when the listener is removed stays unreleased and unexecuted under every later
sequence of events. -/
theorem teardown (pg : Page) (before later : List PageEvent) :
    (dispatch (dispatchAll pg before) PageEvent.windowLoad).listening = false ∧
      (dispatchAll (dispatch (dispatchAll pg before) PageEvent.windowLoad) later).state =
        (dispatchAll pg before).state ∧
      (∀ p, releasedAt (dispatchAll pg before).state p = false →
        releasedAt
            (dispatchAll (dispatch (dispatchAll pg before) PageEvent.windowLoad) later).state p =
          false ∧
        execCount
            (dispatchAll (dispatch (dispatchAll pg before) PageEvent.windowLoad) later).state p =
          execCount (dispatchAll pg before).state p) := by
  have hoff : (dispatch (dispatchAll pg before) PageEvent.windowLoad).listening = false := rfl
  have hstate :
      (dispatchAll (dispatch (dispatchAll pg before) PageEvent.windowLoad) later).state =
        (dispatchAll pg before).state := by
    rw [dispatchAll_of_not_listening later _ hoff]
    rfl
  refine ⟨hoff, hstate, ?_⟩
  intro p hp
  rw [hstate]
  exact ⟨hp, rfl⟩

/-- C14 (identifier extraction): the pattern of line 92 maps the id `h ++ "-js"`, for a handle
`h` that is not empty and has no line terminator, to exactly `h`, and the handler then
completes `h`; so `a-js-js` gives `a-js`. For every id that is not a non-empty string followed
by `-js`, such as the empty id, `-js`, `foo-js-before` and `foo-js-after`, the handler returns
the state as it was: registry, document and effect log unchanged. -/
theorem identifier_extraction (s : State) (target : Element) :
    (∀ h : String, h ≠ "" → (∀ c ∈ h.data, isLineTerminator c = false) →
        matchHandle (h ++ "-js") = some h ∧
        (target.id = h ++ "-js" →
          (onScriptLoad s target).doneDependencies = addDone s.doneDependencies h target)) ∧
      matchHandle "a-js-js" = some "a-js" ∧
      ((¬ ∃ h : String, h ≠ "" ∧ target.id = h ++ "-js") → onScriptLoad s target = s) ∧
      (target.id = "" ∨ target.id = "-js" ∨ target.id = "foo-js-before" ∨
          target.id = "foo-js-after" → onScriptLoad s target = s) := by
  refine ⟨?_, by decide, fun h => onScriptLoad_of_not_decorated h, ?_⟩
  · intro h hne hlt
    have hm := matchHandle_append_js hne hlt
    refine ⟨hm, fun hid => ?_⟩
    exact onScriptLoad_doneDependencies_of_match (by rw [hid]; exact hm)
  · intro h
    apply onScriptLoad_of_no_match
    rcases h with h | h | h | h <;> rw [h] <;> decide

/-- C16 (frame of release): `runInlineScript` on the node at `p`, whether it executes or
refuses it, leaves the registry and the page nonce unchanged and leaves every other node as it
was, with its done marker, nonce, dependencies, execution count and report count. In
particular, in one pool scan every node of the pool whose dependencies are done is released,
whatever happened to the nodes scanned before it, refused ones included. -/
theorem frame_of_release (s : State) (p : Nat) :
    (runInlineScript s p).doneDependencies = s.doneDependencies ∧
      (runInlineScript s p).nonce = s.nonce ∧
      (∀ q, q ≠ p → (runInlineScript s p).document[q]? = s.document[q]?) ∧
      (∀ q, q ≠ p → releasedAt (runInlineScript s p) q = releasedAt s q ∧
        execCount (runInlineScript s p) q = execCount s q ∧
        reportCount (runInlineScript s p) q = reportCount s q) ∧
      (∀ (pool : List Nat) (q : Nat), q ∈ pool → depsDoneAt s q = true →
        releaseEffect s q ∈ (runReadyInlineScripts s pool).trace.drop s.trace.length) ∧
      (∀ q, depsDoneAt s p = true → depsDoneAt s q = true →
        (runReadyInlineScripts s [p, q]).trace =
          s.trace ++ [releaseEffect s p, releaseEffect s q]) := by
  refine ⟨runInlineScript_doneDependencies s p, runInlineScript_nonce s p,
    fun q hq => runInlineScript_document_ne s hq, ?_, ?_, ?_⟩
  · intro q hq
    exact ⟨releasedAt_runInlineScript_ne s (Ne.symm hq),
      execCount_runInlineScript_ne s (Ne.symm hq), reportCount_runInlineScript_ne s (Ne.symm hq)⟩
  · intro pool q hq hdone
    rw [runReadyInlineScripts_trace s pool s (sameFrame_refl s), List.drop_left]
    exact List.mem_map_of_mem _ (List.mem_filter.2 ⟨hq, hdone⟩)
  · intro q hp hq
    rw [runReadyInlineScripts_trace s [p, q] s (sameFrame_refl s)]
    simp [List.filter_cons, hp, hq]

/-- C17 (dependency list parsing): `getDepsData` gives no dependency when `data-wp-deps` is
absent or empty. For a non-empty value it gives the fields between the commas, in order,
untrimmed and with the empty ones: there is one field more than there are commas, no field
contains a comma, and joining the fields with `,` gives the value back. -/
theorem dependency_list_parsing (e : Element) :
    (e.wpDeps = none → getDepsData e = []) ∧
      (e.wpDeps = some "" → getDepsData e = []) ∧
      (∀ v : String, v ≠ "" → e.wpDeps = some v →
        (getDepsData e).length = v.data.count ',' + 1 ∧
        (∀ f ∈ getDepsData e, ',' ∉ f.data) ∧
        ",".intercalate (getDepsData e) = v) ∧
      getDepsData (fragment "f-js-before" (some " a,,b ,") "") = [" a", "", "b ", ""] := by
  refine ⟨fun h => by simp [getDepsData, h], fun h => by simp [getDepsData, h], ?_, by decide⟩
  intro v hv hdeps
  have hget : getDepsData e = (splitComma v.data).map String.mk := by
    simp [getDepsData, hdeps, hv]
  rw [hget]
  refine ⟨by simp [length_splitComma], ?_, ?_⟩
  · intro f hf
    obtain ⟨cs, hcs, rfl⟩ := List.mem_map.1 hf
    exact not_mem_of_mem_splitComma v.data cs hcs
  · apply String.ext
    rw [data_intercalate, List.map_map]
    have hid : String.data ∘ String.mk = fun cs : List Char => cs := rfl
    rw [hid, List.map_id']
    exact intercalate_splitComma v.data

/-- C20 (eligibility is monotone in the registry): for a fixed document, a dependency that
`isDependencyDone` accepts under a registry is accepted under every larger registry. Hence a
dependency that is done stays done after every further sequence of load events, and a node
whose dependencies are all done keeps them all done. -/
theorem eligibility_monotone (s : State) :
    (∀ (larger : List String) (dep : String), s.doneDependencies ⊆ larger →
        isDependencyDone s dep = true →
        isDependencyDone { s with doneDependencies := larger } dep = true) ∧
      (∀ (events : List Element) (dep : String), isDependencyDone s dep = true →
        isDependencyDone (handleEvents s events) dep = true) ∧
      (∀ (events : List Element) (p : Nat), depsDoneAt s p = true →
        depsDoneAt (handleEvents s events) p = true) := by
  refine ⟨?_, ?_, ?_⟩
  · intro larger dep hsub h
    exact isDependencyDone_mono (t := { s with doneDependencies := larger }) hsub rfl h
  · intro events dep h
    exact isDependencyDone_mono (handleEvents_subset events s) (handleEvents_fixedPart s events) h
  · intro events p h
    exact depsDoneAt_mono (handleEvents_subset events s) (handleEvents_fixedPart s events) h

/-- C15 (released is terminal): `runInlineScript` sets the done marker on both paths, and the
executable clone already carries it, the marker being written before the clone is made. No
operation clears it: a node that carries the marker keeps it through `runInlineScript` on any
node, through a pool scan and through every sequence of load events. And over a sequence of
events from the initial state no node is both executed and refused. -/
theorem released_is_terminal (s : State) (events : List Element) (p : Nat) :
    (∀ e : Element, s.document[p]? = some e →
        releasedAt (runInlineScript s p) p = true ∧
        ((runInlineScript s p).document[p]?).map Element.wpDone = some (some "1")) ∧
      (releasedAt s p = true → ∀ q, releasedAt (runInlineScript s q) p = true) ∧
      (releasedAt s p = true → ∀ pool, releasedAt (runReadyInlineScripts s pool) p = true) ∧
      (releasedAt s p = true → releasedAt (handleEvents s events) p = true) ∧
      (∀ (nonce : String) (doc : List Element),
        ¬ (Effect.executed p ∈ (handleEvents (init nonce doc) events).trace ∧
          Effect.refused p ∈ (handleEvents (init nonce doc) events).trace)) := by
  refine ⟨?_, ?_, ?_, ?_, ?_⟩
  · intro e he
    refine ⟨runInlineScript_releasedAt he, ?_⟩
    cases hn : nonceCheckFails s.nonce e
    · rw [runInlineScript_of_passes he hn]
      simp [getElem?_set_same _ he]
    · rw [runInlineScript_of_fails he hn]
      simp [getElem?_set_same _ he]
  · intro h q
    exact releasedAt_runInlineScript_mono s q h
  · intro h pool
    exact runReadyInlineScripts_releasedAt s p pool s (sameFrame_refl s) (Or.inr h)
  · intro h
    exact releasedAt_handleEvents_mono s events h
  · rintro nonce doc ⟨hexec, hrefused⟩
    have h1 := trace_handleEvents_init nonce doc events _ hexec
    have h2 := trace_handleEvents_init nonce doc events _ hrefused
    simp only [Effect.pos] at h1 h2
    rw [← h2] at h1
    cases h1

/-- Counterexample to C18 as stated: a before script whose `data-wp-deps` attribute is present
but empty declares no dependency, yet it matches `[data-wp-deps]`, is part of the pool and is
released by the scan. -/
theorem pool_membership_counterexample :
    (fragment "f-js-before" (some "") "").wpDeps = some "" ∧
      getDepsData (fragment "f-js-before" (some "") "") = [] ∧
      beforePool (init "" [fragment "f-js-before" (some "") ""]) (scriptEl "x-js") "x" = [0] ∧
      (onScriptLoad (init "" [fragment "f-js-before" (some "") ""]) (scriptEl "x-js")).trace =
        [Effect.executed 0] := by
  decide

/-- C18, amended (pool membership): every node released by the pool scan of one `onScriptLoad`
call is, when the scan starts, a node the selector of line 125 matches: a script element
without `src` whose type is `text/plain`, whose id ends in `-js-before`, that has no done
marker and carries the `data-wp-deps` attribute, empty or not. When line 115 throws there is
no scan and nothing is released. When the handler reaches the scan, a before script whose
attribute is present but empty is part of the pool and, having no dependency to wait for, is
released by it. -/
theorem pool_membership (s : State) (target : Element) (handle : String)
    (hm : matchHandle target.id = some handle) :
    (onScriptLoad s target).trace.drop (afterPhase s target handle).trace.length =
        ((beforePool s target handle).filter (depsDoneAt (afterPhase s target handle))).map
          (releaseEffect s) ∧
      (∀ eff ∈ (onScriptLoad s target).trace.drop (afterPhase s target handle).trace.length,
        ∃ e, (afterPhase s target handle).document[eff.pos]? = some e ∧
          matchesScript e = true ∧ e.hasSrc = false ∧ typeIsPlain e = true ∧
          e.wpDeps.isSome = true ∧ "-js-before".data.isSuffixOf e.id.data = true ∧
          e.wpDone = none) ∧
      (selectorThrows target handle = true → (onScriptLoad s target).trace = s.trace) ∧
      (selectorThrows target handle = false →
        ∀ (q : Nat) (e : Element), (afterPhase s target handle).document[q]? = some e →
          beforeSelector e = true → getDepsData e = [] →
          releaseEffect s q ∈
            (onScriptLoad s target).trace.drop (afterPhase s target handle).trace.length) := by
  have hdrop : (onScriptLoad s target).trace.drop (afterPhase s target handle).trace.length =
      ((beforePool s target handle).filter (depsDoneAt (afterPhase s target handle))).map
        (releaseEffect s) := by
    rw [onScriptLoad_trace hm, List.drop_left]
  refine ⟨hdrop, ?_, ?_, ?_⟩
  · intro eff heff
    rw [hdrop] at heff
    obtain ⟨q, hq, rfl⟩ := List.mem_map.1 heff
    rw [pos_releaseEffect]
    exact beforePool_spec (List.mem_filter.1 hq).1
  · intro hthrows
    rw [onScriptLoad_of_throws hm hthrows]
  · intro hthrows q e he hb hdeps
    rw [hdrop]
    apply List.mem_map_of_mem
    refine List.mem_filter.2 ⟨mem_beforePool.2 ⟨hthrows, e, he, hb⟩, ?_⟩
    simp [depsDoneAt, he, hdeps]

/-- Witness of C18, amended: the pool scan for the event of `x-js` releases the before script
with the empty attribute. -/
theorem pool_membership_witness :
    releaseEffect (init "" [fragment "f-js-before" (some "") ""]) 0 ∈
      (onScriptLoad (init "" [fragment "f-js-before" (some "") ""]) (scriptEl "x-js")).trace.drop
        (afterPhase (init "" [fragment "f-js-before" (some "") ""]) (scriptEl "x-js")
          "x").trace.length :=
  (pool_membership (init "" [fragment "f-js-before" (some "") ""]) (scriptEl "x-js") "x"
    (by decide)).2.2.2 (by decide) 0 (fragment "f-js-before" (some "") "") (by decide)
    (by decide) (by decide)

/-- C19 (after before before): in one call of `onScriptLoad` the registry is updated first,
with the handle and the dependencies declared on the target; then the after script of the
handle is released, if the step selects one; only then does the pool scan release before
scripts, reading the updated registry. The effects of the call are therefore the effect of the
after script followed by those of the before scripts. When line 115 throws, the call ends
with the registry updated and nothing released. -/
theorem after_before_before (s : State) (target : Element) (handle : String)
    (hm : matchHandle target.id = some handle) :
    (afterPhase s target handle).doneDependencies =
        addDone s.doneDependencies handle target ∧
      (afterPhase s target handle).trace =
        s.trace ++ (afterTarget s target handle).toList.map (releaseEffect s) ∧
      (∀ p, afterTarget s target handle = some p →
        ∃ e id, s.document[p]? = some e ∧ selectorId handle = some id ∧ e.id = id ∧
          e.isScript = true ∧ ∃ front : String, e.id = front ++ "-js-after") ∧
      (onScriptLoad s target).trace =
        s.trace ++ (afterTarget s target handle).toList.map (releaseEffect s) ++
          ((beforePool s target handle).filter
            (depsDoneAt (afterPhase s target handle))).map (releaseEffect s) ∧
      (∀ q ∈ beforePool s target handle,
        ∃ e, s.document[q]? = some e ∧ "-js-before".data.isSuffixOf e.id.data = true) ∧
      (selectorThrows target handle = true →
        onScriptLoad s target =
          { s with doneDependencies := addDone s.doneDependencies handle target }) := by
  refine ⟨afterPhase_doneDependencies s target handle, afterPhase_trace s target handle, ?_, ?_,
    ?_, fun hthrows => onScriptLoad_of_throws hm hthrows⟩
  · intro p hp
    obtain ⟨_, id, hsid, _, e, he, hs, hscript⟩ := afterTarget_selected hp
    obtain ⟨front, hfront⟩ := selectorId_suffix hsid
    exact ⟨e, id, he, hsid, afterSelector_id hs, hscript, front,
      (afterSelector_id hs).trans hfront⟩
  · rw [onScriptLoad_trace hm, afterPhase_trace]
  · intro q hq
    obtain ⟨e1, he1, _, _, _, _, hsuf, _⟩ := beforePool_spec hq
    obtain ⟨e, he, hid⟩ := exists_of_fixedPart (afterPhase_fixedPart s target handle) he1
    exact ⟨e, he, by rw [hid]; exact hsuf⟩

/-- Witness of C19: the deferred unit `jquery` completes. Before the call the before script
that waits for it is not ready, the unit being in the document and not in the registry; the
call completes `jquery` first, then runs its after script, then the before script. -/
theorem after_before_before_witness :
    depsDoneAt (init "" [deferredUnit "jquery-js" none, fragment "jquery-js-after" none "",
        fragment "f-js-before" (some "jquery") ""]) 2 = false ∧
      (onScriptLoad (init "" [deferredUnit "jquery-js" none, fragment "jquery-js-after" none "",
        fragment "f-js-before" (some "jquery") ""]) (deferredUnit "jquery-js" none)).trace =
      [Effect.executed 1, Effect.executed 2] := by
  have h := (after_before_before (init "" [deferredUnit "jquery-js" none,
    fragment "jquery-js-after" none "", fragment "f-js-before" (some "jquery") ""])
    (deferredUnit "jquery-js" none) "jquery" (by decide)).2.2.2.1
  refine ⟨by decide, ?_⟩
  rw [h]
  decide

/-- Counterexample to C11 as stated: the handler ignores the event of a script whose id is
`-js` (the handle would be empty) and of a script whose handle holds a line feed, and for a
deferred script whose handle holds a double quote line 115 throws before the pool scan; in
each case a before script of the pool whose only dependency has no backing script, or is that
handle, is not released by the call. -/
theorem same_invocation_release_counterexample :
    (scriptEl "-js").id = "" ++ "-js" ∧
      beforeSelector (fragment "f-js-before" (some "ghost") "") = true ∧
      getDepsData (fragment "f-js-before" (some "ghost") "") = ["ghost"] ∧
      (onScriptLoad (init "" [fragment "f-js-before" (some "ghost") ""])
        (scriptEl "-js")).trace = [] ∧
      (scriptEl "a\nb-js").id = "a\nb" ++ "-js" ∧
      getDepsData (fragment "f-js-before" (some "a\nb") "") = ["a\nb"] ∧
      (onScriptLoad (init "" [fragment "f-js-before" (some "a\nb") ""])
        (scriptEl "a\nb-js")).trace = [] ∧
      (deferredUnit "a\"b-js" none).id = "a\"b" ++ "-js" ∧
      getDepsData (fragment "f-js-before" (some "a\"b") "") = ["a\"b"] ∧
      (onScriptLoad (init "" [deferredUnit "a\"b-js" none,
        fragment "f-js-before" (some "a\"b") ""]) (deferredUnit "a\"b-js" none)).trace = [] ∧
      releasedAt (onScriptLoad (init "" [deferredUnit "a\"b-js" none,
        fragment "f-js-before" (some "a\"b") ""]) (deferredUnit "a\"b-js" none)) 1 = false := by
  decide

/-- C11, amended (same-invocation release): for a load event whose target has the id
`X ++ "-js"`, with `X` not empty and free of line terminators, and for which line 115 does not
throw (the target is not an async or deferred script, or the selector text built from `X` is
a valid selector), every before script of the pool each of whose dependencies is `X`, or is
declared on the target, or was already in the registry, or has no script element with its id
in the document, is released during that call of `onScriptLoad`: its effect is logged by the
call, it carries the done marker afterwards, and it is executed when the nonce check passes. -/
theorem same_invocation_release (s : State) (target : Element) (X : String) (p : Nat)
    (F : Element) (hid : target.id = X ++ "-js") (hne : X ≠ "")
    (hlt : ∀ c ∈ X.data, isLineTerminator c = false)
    (hsel : selectorThrows target X = false)
    (hF : s.document[p]? = some F) (hpool : beforeSelector F = true)
    (hdeps : ∀ dep ∈ getDepsData F, dep = X ∨ dep ∈ getDepsData target ∨
      dep ∈ s.doneDependencies ∨
      ∀ e ∈ s.document, e.id = dep ++ "-js" → e.isScript = false) :
    releaseEffect s p ∈ (onScriptLoad s target).trace.drop s.trace.length ∧
      releasedAt (onScriptLoad s target) p = true ∧
      (nonceCheckFails s.nonce F = false →
        Effect.executed p ∈ (onScriptLoad s target).trace.drop s.trace.length) := by
  have hm : matchHandle target.id = some X := by
    rw [hid]; exact matchHandle_append_js hne hlt
  have hF2 := afterPhase_document_of_before hF hpool target X
  have hfp := afterPhase_fixedPart s target X
  have hdone : depsDoneAt (afterPhase s target X) p = true := by
    unfold depsDoneAt
    rw [hF2]
    simp only [List.all_eq_true]
    intro dep hdep
    rw [isDependencyDone_eq_true_iff, afterPhase_doneDependencies]
    rcases hdeps dep hdep with h | h | h | h
    · exact Or.inl (mem_addDone.2 (Or.inr (Or.inl h)))
    · exact Or.inl (mem_addDone.2 (Or.inr (Or.inr h)))
    · exact Or.inl (mem_addDone.2 (Or.inl h))
    · right
      rw [← instanceof_getElementById_iff, ← instanceof_getElementById_map, hfp,
        instanceof_getElementById_map, instanceof_getElementById_iff]
      rintro ⟨q, e, he, heid, hs, _⟩
      have := h e (List.getElem?_mem he) heid
      rw [hs] at this
      cases this
  have hmem : p ∈ beforePool s target X := mem_beforePool.2 ⟨hsel, F, hF2, hpool⟩
  have hrel : releaseEffect s p ∈ (onScriptLoad s target).trace.drop s.trace.length := by
    rw [drop_trace_onScriptLoad hm]
    exact List.mem_append_right _
      (List.mem_map_of_mem _ (List.mem_filter.2 ⟨hmem, hdone⟩))
  refine ⟨hrel, releasedAt_onScriptLoad_of_pool hm hmem hdone, ?_⟩
  intro hn
  have : releaseEffect s p = Effect.executed p := by simp [releaseEffect, hF, hn]
  rw [← this]
  exact hrel

/-- Witness of C11, amended: empty registry, a before script that waits for `jquery`, and the
load event of the deferred script `jquery-js`. -/
theorem same_invocation_release_witness :
    Effect.executed 1 ∈
      (onScriptLoad (init "" [deferredUnit "jquery-js" none,
        fragment "f1-js-before" (some "jquery") ""])
        (deferredUnit "jquery-js" none)).trace.drop 0 :=
  (same_invocation_release
    (init "" [deferredUnit "jquery-js" none, fragment "f1-js-before" (some "jquery") ""])
    (deferredUnit "jquery-js" none) "jquery" 1 (fragment "f1-js-before" (some "jquery") "") rfl
    (by decide) (by decide) (by decide) rfl (by decide) (by decide)).2.2 (by decide)

/-- Counterexample to C12 as stated. In each case the unit is deferred and a withheld after
script with the id of the unit followed by `-js-after` exists, yet the call releases nothing:
the handler ignores the event of a script whose id is `-js` and of one whose handle holds a
line feed; for a handle with a backslash the selector of line 116 asks for another id; for a
handle with a double quote line 115 throws; and when the first match of the selector is an SVG
script, line 118 rejects it and the HTML after script behind it is never looked at. -/
theorem after_fragment_release_counterexample :
    ((deferredUnit "-js" none).id = "" ++ "-js" ∧ (deferredUnit "-js" none).defer = true ∧
        afterSelector ("" ++ "-js-after") (fragment "-js-after" none "") = true ∧
        (onScriptLoad (init "" [fragment "-js-after" none ""]) (deferredUnit "-js" none)).trace =
          []) ∧
      ((deferredUnit "a\nb-js" none).id = "a\nb" ++ "-js" ∧
        afterSelector ("a\nb" ++ "-js-after") (fragment "a\nb-js-after" none "") = true ∧
        (onScriptLoad (init "" [fragment "a\nb-js-after" none ""])
          (deferredUnit "a\nb-js" none)).trace = []) ∧
      ((deferredUnit "a\\b-js" none).id = "a\\b" ++ "-js" ∧
        afterSelector ("a\\b" ++ "-js-after") (fragment "a\\b-js-after" none "") = true ∧
        (onScriptLoad (init "" [fragment "a\\b-js-after" none ""])
          (deferredUnit "a\\b-js" none)).trace = []) ∧
      ((deferredUnit "a\"b-js" none).id = "a\"b" ++ "-js" ∧
        afterSelector ("a\"b" ++ "-js-after") (fragment "a\"b-js-after" none "") = true ∧
        (onScriptLoad (init "" [fragment "a\"b-js-after" none ""])
          (deferredUnit "a\"b-js" none)).trace = []) ∧
      (afterSelector ("u" ++ "-js-after") (fragment "u-js-after" none "") = true ∧
        (fragment "u-js-after" none "").isScript = true ∧
        (onScriptLoad (init "" [svgFragment "u-js-after" none "", fragment "u-js-after" none ""])
          (deferredUnit "u-js" none)).trace = []) := by
  decide

/-- C12, amended (after-fragment release): for the load event of a script whose id is
`H ++ "-js"`, with `H` not empty, free of line terminators and made of characters that stand
for themselves in a CSS string, the call of `onScriptLoad` releases a node with the id
`H ++ "-js-after"` if and only if the script is async or deferred and the first element that
matches the selector of line 116, a withheld after script with that id, is an HTML script
element; the node released is that element and its effect is the first of the call, whatever
the before scripts of the pool. Every node released by the call whose id is that of an after
script is this node: no after script of another unit is released. -/
theorem after_fragment_release (s : State) (target : Element) (H : String)
    (hscript : target.isScript = true) (hid : target.id = H ++ "-js") (hne : H ≠ "")
    (hlt : ∀ c ∈ H.data, isLineTerminator c = false)
    (hplain : ∀ c ∈ H.data, cssPlain c = true) :
    ((target.async || target.defer) = true →
        ∀ (p : Nat) (e : Element),
          querySelector s.document (afterSelector (H ++ "-js-after")) = some p →
          s.document[p]? = some e → e.isScript = true →
          ((onScriptLoad s target).trace.drop s.trace.length).head? =
            some (releaseEffect s p)) ∧
      (∀ eff ∈ (onScriptLoad s target).trace.drop s.trace.length,
        ∀ (e : Element) (G : String), s.document[eff.pos]? = some e →
          e.id = G ++ "-js-after" →
          G = H ∧ (target.async || target.defer) = true ∧ e.isScript = true ∧
            querySelector s.document (afterSelector (H ++ "-js-after")) = some eff.pos) ∧
      ((∃ eff ∈ (onScriptLoad s target).trace.drop s.trace.length,
          ∃ e : Element, s.document[eff.pos]? = some e ∧ e.id = H ++ "-js-after") ↔
        ((target.async || target.defer) = true ∧
          ∃ (p : Nat) (e : Element),
            querySelector s.document (afterSelector (H ++ "-js-after")) = some p ∧
            s.document[p]? = some e ∧ e.isScript = true)) := by
  have hm : matchHandle target.id = some H := by
    rw [hid]; exact matchHandle_append_js hne hlt
  have hsid := selectorId_plain hplain
  have hdrop := drop_trace_onScriptLoad (s := s) hm
  have hfirst : (target.async || target.defer) = true →
      ∀ (p : Nat) (e : Element),
        querySelector s.document (afterSelector (H ++ "-js-after")) = some p →
        s.document[p]? = some e → e.isScript = true →
        ((onScriptLoad s target).trace.drop s.trace.length).head? =
          some (releaseEffect s p) := by
    intro hasync p e hp he hes
    have ht : afterTarget s target H = some p := by
      simp [afterTarget, hscript, hasync, hsid, hp, he, instanceofHTMLScriptElement, hes]
    rw [hdrop, ht]
    rfl
  have hback : ∀ eff ∈ (onScriptLoad s target).trace.drop s.trace.length,
      ∀ (e : Element) (G : String), s.document[eff.pos]? = some e →
        e.id = G ++ "-js-after" →
        G = H ∧ (target.async || target.defer) = true ∧ e.isScript = true ∧
          querySelector s.document (afterSelector (H ++ "-js-after")) = some eff.pos := by
    intro eff heff e G he hG
    rw [hdrop, List.mem_append] at heff
    rcases heff with h | h
    · obtain ⟨p, hp, rfl⟩ := List.mem_map.1 h
      have hp1 : afterTarget s target H = some p := by simpa using hp
      obtain ⟨hguard, id, hsid1, hq, e1, he1, hs, hes⟩ := afterTarget_selected hp1
      have hidH : id = H ++ "-js-after" := by
        rw [hsid] at hsid1
        exact (Option.some.inj hsid1).symm
      rw [pos_releaseEffect] at he ⊢
      rw [he1] at he
      have hee : e = e1 := (Option.some.inj he).symm
      rw [hee] at hG ⊢
      rw [hidH] at hs hq
      refine ⟨append_after_cancel (hG.symm.trans (afterSelector_id hs)), ?_, hes, hq⟩
      simpa [hscript] using hguard
    · exfalso
      obtain ⟨q, hq, rfl⟩ := List.mem_map.1 h
      rw [pos_releaseEffect] at he
      obtain ⟨e1, he1, _, _, _, _, hsuf, _⟩ := beforePool_spec (List.mem_filter.1 hq).1
      have hid1 := id_of_fixedPart (afterPhase_fixedPart s target H) he he1
      rw [hid1, hG, not_suffix_before_of_after] at hsuf
      cases hsuf
  refine ⟨hfirst, hback, ?_⟩
  constructor
  · rintro ⟨eff, heff, e, he, hide⟩
    obtain ⟨_, hasync, hes, hq⟩ := hback eff heff e H he hide
    exact ⟨hasync, eff.pos, e, hq, he, hes⟩
  · rintro ⟨hasync, p, e, hq, he, hes⟩
    have hhead := hfirst hasync p e hq he hes
    obtain ⟨e1, he1, hs1⟩ := querySelector_some hq
    refine ⟨releaseEffect s p, List.mem_of_mem_head? hhead, e1, ?_, afterSelector_id hs1⟩
    rw [pos_releaseEffect]
    exact he1

/-- Witness of C12, amended: the deferred unit `u` completes and its after script is the first
node released. -/
theorem after_fragment_release_witness :
    ((onScriptLoad (init "" [fragment "f-js-before" (some "u") "",
        fragment "u-js-after" none ""]) (deferredUnit "u-js" none)).trace.drop 0).head? =
      some (Effect.executed 1) :=
  (after_fragment_release (init "" [fragment "f-js-before" (some "u") "",
    fragment "u-js-after" none ""]) (deferredUnit "u-js" none) "u" rfl rfl (by decide)
    (by decide) (by decide)).1 (by decide) 1 (fragment "u-js-after" none "") (by decide) rfl rfl

end DelayedInlineScriptLoader
